import Mathlib

/-
Shallow embedding of the fund-allocation core of the Money-Goal-Tracking
web application.

The embedded code comes from:
* the goals store (`addGoal`, `removeGoal`, `addFunds`, `addFundsToGoal`,
  `addFundsToSideGoal`) in `src/lib/types.ts` (concatenated store section,
  lines 201-370) and `src/lib/store.tsx`;
* the unallocated-funds queue (`allocateDeposit`, `totalUnallocated`) in
  `src/lib/types.ts` lines 583-608;
* the sync merge functions (`mergeAppExpenses`, `mergeAppBills`) in
  `src/lib/useExternalSync.ts` lines 110-166;
* the add-goal form handler (`handleAddGoal`) in
  `src/components/SettingsView.tsx` lines 60-66.

Modelling conventions: JavaScript `number` amounts are modelled as `ℚ`;
`uuid()` and `new Date().toISOString()` are modelled as identifier/date
strings supplied by the environment as explicit parameters; a JavaScript
plain-object record used as a string-keyed map is modelled as an
association list with assign-in-place-or-append update semantics
(`recordSet`), matching insertion-order iteration of `Object.entries`;
a JavaScript `Map` over bills is modelled the same way (`mapSetBill`).
`Array.prototype.sort`, which is stable, is modelled by `insertionSort`.
-/

namespace MoneyGoals

/-- Model of `SideGoal` from `src/lib/types.ts`: a nested node owned by a parent
goal; nests one level further through `subGoals`. -/
inductive SideGoal where
  | mk (id : String) (title : String) (targetAmount : ℚ) (currentAmount : ℚ)
      (subGoals : List SideGoal)

def SideGoal.id : SideGoal → String
  | .mk i _ _ _ _ => i

def SideGoal.title : SideGoal → String
  | .mk _ t _ _ _ => t

def SideGoal.targetAmount : SideGoal → ℚ
  | .mk _ _ ta _ _ => ta

def SideGoal.currentAmount : SideGoal → ℚ
  | .mk _ _ _ ca _ => ca

def SideGoal.subGoals : SideGoal → List SideGoal
  | .mk _ _ _ _ sub => sub

/-- Replace the `currentAmount` of a side goal, keeping every other field. -/
def SideGoal.setCurrentAmount : SideGoal → ℚ → SideGoal
  | .mk i t ta _ sub, c => .mk i t ta c sub

/-- Model of `Goal` from `src/lib/types.ts` lines 27-38 (with the `sideGoals`
field the store code attaches on creation). -/
structure Goal where
  id : String
  title : String
  targetAmount : ℚ
  currentAmount : ℚ
  orderIndex : Int
  sideGoals : List SideGoal

/-- Model of the `GoalDeposit` audit record (`{id, goalId, goalTitle, amount, date,
isSideGoal}`). -/
structure GoalDeposit where
  id : String
  goalId : String
  goalTitle : String
  amount : ℚ
  date : String
  isSideGoal : Bool

/-- Model of an `UnallocatedDeposit` held in the unallocated-funds queue. -/
structure UnallocatedDeposit where
  id : String
  amountCAD : ℚ
  amountUSD : ℚ
  note : String
  date : String
  source : String
  pushedAt : String

/-- Model of a `SpendingEntry` of the spending ledger. -/
structure SpendingEntry where
  id : String
  title : String
  amount : ℚ
  date : String
  category : Option String

/-- Model of a `Bill` of the bill ledger; `frequency` is the `BillFrequency` string
union, `lastPaidDate` and `chargeToAccountId` are optional. -/
structure Bill where
  id : String
  name : String
  amount : ℚ
  dueDay : ℚ
  frequency : String
  category : String
  isPaid : Bool
  lastPaidDate : Option String
  chargeToAccountId : Option String

/-- Model of the `AppExpense` payload shape from `src/lib/useExternalSync.ts` lines
48-54. -/
structure AppExpense where
  id : String
  title : String
  amount : ℚ
  date : String
  category : Option String

/-- Model of the `AppRecurring` payload shape from `src/lib/useExternalSync.ts` lines
56-64; `active` is the optional boolean flag. -/
structure AppRecurring where
  id : String
  name : String
  amount : ℚ
  frequency : String
  dueDay : ℚ
  category : Option String
  active : Option Bool

/- ── Goal ledger operations ─────────────────────────────────────── -/

/-- Comparator used by every goal sort in the store:
`(a, b) => a.orderIndex - b.orderIndex`. -/
def goalLE (a b : Goal) : Prop := a.orderIndex ≤ b.orderIndex

instance : DecidableRel goalLE := fun a b => Int.decLe a.orderIndex b.orderIndex

instance : IsTotal Goal goalLE := ⟨fun a b => Int.le_total a.orderIndex b.orderIndex⟩

instance : IsTrans Goal goalLE :=
  ⟨fun a b _ h h2 => le_trans (a := a.orderIndex) (b := b.orderIndex) h h2⟩

/-- Model of `[...goals].sort((a, b) => a.orderIndex - b.orderIndex)`; JavaScript
`Array.prototype.sort` is stable, modelled by a stable sort. -/
def sortByOrderIndex (l : List Goal) : List Goal := l.insertionSort goalLE

/-- Model of `goals.reduce((max, g) => Math.max(max, g.orderIndex), -1)` from
`addGoal`. -/
def maxOrder (goals : List Goal) : Int :=
  goals.foldl (fun m g => max m g.orderIndex) (-1)

/-- Model of `addGoal` from `src/lib/types.ts` lines 201-215; `newId` models the
generated `uuid()`. -/
def addGoal (goals : List Goal) (newId : String) (title : String)
    (targetAmount : ℚ) : List Goal :=
  goals ++ [{ id := newId, title := title, targetAmount := targetAmount,
              currentAmount := 0, orderIndex := maxOrder goals + 1,
              sideGoals := [] }]

/-- Model of `removeGoal` from `src/lib/types.ts` lines 217-224: filter out the
goal, stable-sort the rest by `orderIndex`, reassign indices `0..n-1`. -/
def removeGoal (goalId : String) (goals : List Goal) : List Goal :=
  ((sortByOrderIndex (goals.filter (fun g => g.id ≠ goalId))).enum).map
    (fun p => { p.2 with orderIndex := (p.1 : Int) })

/-- Model of `handleAddGoal` from `src/components/SettingsView.tsx` lines 60-66:
`parseFloat(newAmount)` is modelled as an `Option ℚ` (`none` = `NaN`);
the guard `!newTitle.trim() || !amount || amount <= 0` rejects a blank
trimmed title, a failed parse, and any parsed value that is zero (falsy)
or `≤ 0`. -/
def handleAddGoal (newTitle : String) (parsedAmount : Option ℚ)
    (goals : List Goal) (newId : String) : List Goal :=
  match parsedAmount with
  | none => goals
  | some a =>
      if newTitle.trim = "" ∨ a = 0 ∨ a ≤ 0 then goals
      else addGoal goals newId newTitle.trim a

/-- Model of `capacity = goal.targetAmount - goal.currentAmount`. -/
def capacity (g : Goal) : ℚ := g.targetAmount - g.currentAmount

/-- Model of the assignment `allocation[key] = v` on a JavaScript object record:
overwrite in place when the key exists, else append. -/
def recordSet (m : List (String × ℚ)) (k : String) (v : ℚ) :
    List (String × ℚ) :=
  if m.any (fun p => p.1 = k) then
    m.map (fun p => if p.1 = k then (k, v) else p)
  else m ++ [(k, v)]

/-- The loop body of `addFunds` (`src/lib/types.ts` lines 233-240):
walks the sorted goal list threading `remaining` and the `allocation`
record; a goal is skipped once `remaining ≤ 0`, otherwise it receives
`min(remaining, capacity)` and, when that deposit is positive, an
allocation entry. Returns (updated goals, allocation, final remaining). -/
def addFundsGo : List Goal → ℚ → List (String × ℚ) →
    List Goal × List (String × ℚ) × ℚ
  | [], remaining, alloc => ([], alloc, remaining)
  | g :: gs, remaining, alloc =>
      if remaining ≤ 0 then
        let r := addFundsGo gs remaining alloc
        (g :: r.1, r.2)
      else
        let dep := min remaining (capacity g)
        let alloc2 := if 0 < dep then recordSet alloc g.id dep else alloc
        let r := addFundsGo gs (remaining - dep) alloc2
        ({ g with currentAmount := g.currentAmount + dep } :: r.1, r.2)

/-- Model of `addFunds` from `src/lib/types.ts` lines 227-265 (goal update and
allocation record; the new goals state is the sorted, updated list). -/
def addFunds (amount : ℚ) (goals : List Goal) :
    List Goal × List (String × ℚ) :=
  let r := addFundsGo (sortByOrderIndex goals) amount []
  (r.1, r.2.1)

/-- The `g?.title || "Unknown"` lookup used when `addFunds` builds its
`GoalDeposit` records. -/
def titleFor (sorted : List Goal) (goalId : String) : String :=
  match sorted.find? (fun g => g.id = goalId) with
  | some g => if g.title = "" then "Unknown" else g.title
  | none => "Unknown"

/-- The `newDeposits` list built by `addFunds` (lines 245-257) from the
allocation entries; `fresh` models the per-record `uuid()` calls and
`now` the shared ISO date string. -/
def addFundsDeposits (fresh : Nat → String) (now : String) (amount : ℚ)
    (goals : List Goal) : List GoalDeposit :=
  let sorted := sortByOrderIndex goals
  ((addFundsGo sorted amount []).2.1.enum).map (fun p =>
    { id := fresh p.1, goalId := p.2.1, goalTitle := titleFor sorted p.2.1,
      amount := p.2.2, date := now, isSideGoal := false })

/-- Model of `addFundsToGoal` from `src/lib/types.ts` lines 267-294: clamp the
deposit for the addressed goal; separately compute `actualDeposit` from
a fresh lookup (falling back to the raw `amount` when the goal is not
found) and append a `GoalDeposit` whenever `actualDeposit > 0`. Returns
(updated goals, updated deposit records). -/
def addFundsToGoal (goalId : String) (amount : ℚ) (goals : List Goal)
    (deposits : List GoalDeposit) (newDepId : String) (now : String) :
    List Goal × List GoalDeposit :=
  let newGoals := goals.map (fun g =>
    if g.id = goalId then
      { g with currentAmount := g.currentAmount + min amount (capacity g) }
    else g)
  let found := goals.find? (fun g => g.id = goalId)
  let actualDeposit : ℚ := match found with
    | some g => min amount (capacity g)
    | none => amount
  let depTitle := match found with
    | some g => if g.title = "" then "Unknown" else g.title
    | none => "Unknown"
  let newDeposits :=
    if 0 < actualDeposit then
      deposits ++ [{ id := newDepId, goalId := goalId, goalTitle := depTitle,
                     amount := actualDeposit, date := now, isSideGoal := false }]
    else deposits
  (newGoals, newDeposits)

/-- Model of `addFundsToSideGoal` from `src/lib/types.ts` lines 340-370: clamp
the deposit into the addressed side goal of the addressed parent; when
`amount > 0` append a `GoalDeposit` with `isSideGoal = true` carrying
the requested `amount` and the title of the side goal (the mutable
`sideGoalTitle`, defaulting to "Side Goal" when nothing matched). -/
def addFundsToSideGoal (parentGoalId sideGoalId : String) (amount : ℚ)
    (goals : List Goal) (deposits : List GoalDeposit)
    (newDepId : String) (now : String) : List Goal × List GoalDeposit :=
  let newGoals := goals.map (fun g =>
    if g.id = parentGoalId then
      { g with sideGoals := g.sideGoals.map (fun sg =>
          if sg.id = sideGoalId then
            sg.setCurrentAmount
              (sg.currentAmount + min amount (sg.targetAmount - sg.currentAmount))
          else sg) }
    else g)
  let sideGoalTitle :=
    match goals.find? (fun g => g.id = parentGoalId) with
    | some g =>
        match g.sideGoals.find? (fun sg => sg.id = sideGoalId) with
        | some sg => sg.title
        | none => "Side Goal"
    | none => "Side Goal"
  let newDeposits :=
    if 0 < amount then
      deposits ++ [{ id := newDepId, goalId := sideGoalId,
                     goalTitle := sideGoalTitle, amount := amount,
                     date := now, isSideGoal := true }]
    else deposits
  (newGoals, newDeposits)

/- ── Unallocated funds queue ────────────────────────────────────── -/

/-- Model of `allocateDeposit` from `src/lib/types.ts` lines 596-608: reduce the
matching `amountCAD`; drop the deposit when the remainder is
`≤ 0.01`. -/
def allocateDeposit (depositId : String) (amount : ℚ)
    (deposits : List UnallocatedDeposit) : List UnallocatedDeposit :=
  deposits.filterMap (fun d =>
    if d.id = depositId then
      let remaining := d.amountCAD - amount
      if remaining ≤ 0.01 then none
      else some { d with amountCAD := remaining }
    else some d)

/-- Model of `totalUnallocated` from `src/lib/types.ts` lines 583-586. -/
def totalUnallocated (deposits : List UnallocatedDeposit) : ℚ :=
  deposits.foldl (fun sum d => sum + d.amountCAD) 0

/- ── External sync merges ───────────────────────────────────────── -/

/-- The `SpendingEntry` that `mergeAppExpenses` builds for a remote
expense (`id = "app-" + remoteId`, `title || "Untitled"`). -/
def mkSyncedEntry (ae : AppExpense) : SpendingEntry :=
  { id := "app-" ++ ae.id,
    title := if ae.title = "" then "Untitled" else ae.title,
    amount := ae.amount, date := ae.date, category := none }

/-- Model of `mergeAppExpenses` from `src/lib/useExternalSync.ts` lines 110-130:
skip a remote expense whose namespaced id already exists locally,
append a new entry for every other one. -/
def mergeAppExpenses (appExpenses : List AppExpense)
    (current : List SpendingEntry) : List SpendingEntry :=
  if appExpenses.isEmpty then current
  else
    let existingIds := current.map (fun e => e.id)
    let newEntries := appExpenses.filterMap (fun ae =>
      if existingIds.contains ("app-" ++ ae.id) then none
      else some (mkSyncedEntry ae))
    if newEntries.isEmpty then current else current ++ newEntries

/-- Model of `billMap.set(key, bill)` on a JavaScript `Map` keyed by bill id:
overwrite in place when the key exists, else append. -/
def mapSetBill (m : List Bill) (b : Bill) : List Bill :=
  if m.any (fun x => x.id = b.id) then
    m.map (fun x => if x.id = b.id then b else x)
  else m ++ [b]

/-- Model of `billMap.get(sid)` on the id-keyed bill map: first bill carrying the
id. -/
def bfind (m : List Bill) (sid : String) : Option Bill :=
  m.find? (fun b => b.id = sid)

/-- Model of `{ ...existing, name: ar.name, amount: ar.amount }`: the in-place
update `mergeAppBills` applies to a bill already present. -/
def updatedBill (existing : Bill) (ar : AppRecurring) : Bill :=
  { existing with name := ar.name, amount := ar.amount }

/-- The `Bill` that `mergeAppBills` inserts for a remote recurring
expense absent from the ledger (`name || "Unnamed"`, `dueDay || 1`,
`frequency || "monthly"`, `category || "General"`). -/
def billFromRecurring (ar : AppRecurring) : Bill :=
  { id := "app-" ++ ar.id,
    name := if ar.name = "" then "Unnamed" else ar.name,
    amount := ar.amount,
    dueDay := if ar.dueDay = 0 then 1 else ar.dueDay,
    frequency := if ar.frequency = "" then "monthly" else ar.frequency,
    category := (match ar.category with
      | some c => if c = "" then "General" else c
      | none => "General"),
    isPaid := false, lastPaidDate := none, chargeToAccountId := none }

/-- One iteration of the `mergeAppBills` loop over the remote recurring
list: skip `active === false`; insert when absent; overwrite `name` and
`amount` (only) when present and either differs. -/
def mergeBillStep (acc : List Bill × Bool) (ar : AppRecurring) :
    List Bill × Bool :=
  if ar.active = some false then acc
  else
    match bfind acc.1 ("app-" ++ ar.id) with
    | none => (mapSetBill acc.1 (billFromRecurring ar), true)
    | some existing =>
        if existing.amount ≠ ar.amount ∨ existing.name ≠ ar.name then
          (mapSetBill acc.1 (updatedBill existing ar), true)
        else acc

/-- Model of `mergeAppBills` from `src/lib/useExternalSync.ts` lines 132-166:
build a `Map` from the current bills, upsert each remote recurring
expense, and commit the map values only when something changed. -/
def mergeAppBills (appRecurring : List AppRecurring)
    (current : List Bill) : List Bill :=
  if appRecurring.isEmpty then current
  else
    let m0 := current.foldl mapSetBill []
    let r := appRecurring.foldl mergeBillStep (m0, false)
    if r.2 then r.1 else current

/- ── Derived quantities used by the specification ───────────────── -/

/-- Sum of the values of an allocation record (`Σ allocation.values()`). -/
def allocSum (l : List (String × ℚ)) : ℚ := (l.map (fun p => p.2)).sum

/-- Total remaining chain capacity `Σ (targetAmount - currentAmount)`. -/
def totalCapacity (goals : List Goal) : ℚ := (goals.map capacity).sum

/-- Number of spending entries carrying a given id. -/
def countId (l : List SpendingEntry) (i : String) : Nat :=
  l.countP (fun e => e.id = i)

/-- All fields of a goal except `orderIndex`. -/
def stripOrder (g : Goal) : String × String × ℚ × ℚ × List SideGoal :=
  (g.id, g.title, g.targetAmount, g.currentAmount, g.sideGoals)

/-- The goal chain invariant: the `orderIndex` values are a permutation
of `0..n-1`. -/
def contiguous (goals : List Goal) : Prop :=
  (goals.map Goal.orderIndex).Perm
    ((List.range goals.length).map (fun k : Nat => (k : Int)))

/- ── Concrete example data used by witnesses and counterexamples ── -/

/-- Example deposit holding 50 CAD, used by the C2 witness. -/
def exDeposit : UnallocatedDeposit :=
  { id := "d1", amountCAD := 50, amountUSD := 37, note := "n",
    date := "2024-01-01", source := "journal", pushedAt := "2024-01-01" }

/-- Example deposit holding 0.005 CAD, below the 0.01 epsilon, used by
the C7 counterexample. -/
def exTinyDeposit : UnallocatedDeposit :=
  { id := "d1", amountCAD := 1 / 200, amountUSD := 0, note := "",
    date := "", source := "", pushedAt := "" }

/-- Example side goal at 8 of 10, used by the C4 failing input. -/
def exSideGoal : SideGoal := .mk "s1" "Laptop" 10 8 []

/-- Example parent goal owning `exSideGoal`. -/
def exParent : Goal :=
  { id := "p1", title := "Parent", targetAmount := 100, currentAmount := 0,
    orderIndex := 0, sideGoals := [exSideGoal] }

/-- The three-goal chain of the specification scenario (targets
100/200/300 at orderIndex 0/1/2, all at 0). -/
def exChain : List Goal :=
  [{ id := "g1", title := "Emergency", targetAmount := 100, currentAmount := 0,
     orderIndex := 0, sideGoals := [] },
   { id := "g2", title := "Vacation", targetAmount := 200, currentAmount := 0,
     orderIndex := 1, sideGoals := [] },
   { id := "g3", title := "Laptop", targetAmount := 300, currentAmount := 0,
     orderIndex := 2, sideGoals := [] }]

/-- Two-goal chain with orderIndex 0 and 1, used by the C5 witness. -/
def exPair : List Goal :=
  [{ id := "a", title := "A", targetAmount := 100, currentAmount := 0,
     orderIndex := 0, sideGoals := [] },
   { id := "b", title := "B", targetAmount := 50, currentAmount := 0,
     orderIndex := 1, sideGoals := [] }]

/-- The local entry `app-123` already present before the C8 scenario
merge. -/
def exEntry123 : SpendingEntry :=
  { id := "app-123", title := "Coffee", amount := 5, date := "2024-01-02",
    category := none }

/-- Local spending ledger of the C8 scenario. -/
def exLedger : List SpendingEntry := [exEntry123]

/-- Remote expense `123`, already merged as `app-123`. -/
def exRemote123 : AppExpense :=
  { id := "123", title := "Coffee", amount := 5, date := "2024-01-02",
    category := none }

/-- Remote expense `456`, new to the ledger. -/
def exRemote456 : AppExpense :=
  { id := "456", title := "Book", amount := 20, date := "2024-01-03",
    category := none }

/-- Remote expense batch of the C8 scenario. -/
def exRemoteExpenses : List AppExpense := [exRemote123, exRemote456]

/-- The namespaced id contributed by a remote recurring expense, `none`
when the entry is inactive and skipped. -/
def activeSid (ar : AppRecurring) : Option String :=
  if ar.active = some false then none else some ("app-" ++ ar.id)

/-- Inactive remote recurring expense, used by the C9 counterexample. -/
def arInactive : AppRecurring :=
  { id := "9", name := "Gym", amount := 30, frequency := "monthly",
    dueDay := 1, category := none, active := some false }

/-- Active remote recurring expense 7, used by the C9 witness. -/
def exRemoteRecurring : AppRecurring :=
  { id := "7", name := "Rent", amount := 1200, frequency := "monthly",
    dueDay := 1, category := none, active := none }

/-- Local bill `app-7`, already paid, used by the C9 witness. -/
def exBill7 : Bill :=
  { id := "app-7", name := "Rent", amount := 1000, dueDay := 1,
    frequency := "monthly", category := "General", isPaid := true,
    lastPaidDate := some "2024-01-05", chargeToAccountId := none }

/- ── General helper lemmas ──────────────────────────────────────── -/

theorem filterMap_id_of_mem {α : Type} (f : α → Option α) :
    ∀ l : List α, (∀ x ∈ l, f x = some x) → l.filterMap f = l := by
  intro l
  induction l with
  | nil => intro _; rfl
  | cons a t ih =>
      intro h
      rw [List.filterMap_cons, h a (List.mem_cons_self a t),
        ih (fun x hx => h x (List.mem_cons_of_mem a hx))]

/- ── Lemmas about the addFunds loop ─────────────────────────────── -/

theorem addFundsGo_nonpos :
    ∀ (gs : List Goal) (r : ℚ) (alloc : List (String × ℚ)), r ≤ 0 →
      addFundsGo gs r alloc = (gs, alloc, r) := by
  intro gs
  induction gs with
  | nil => intro r alloc _; rfl
  | cons g t ih =>
      intro r alloc h
      simp only [addFundsGo, if_pos h, ih r alloc h]

/-- C10: for every goal list and every amount ≤ 0, `addFunds` returns an
empty allocation map, leaves every goal unchanged (the stored list is
just the stable re-sort of the previous goals), and appends no
`GoalDeposit` record. -/
theorem addFunds_nonpos (amount : ℚ) (goals : List Goal)
    (fresh : Nat → String) (now : String) (h : amount ≤ 0) :
    (addFunds amount goals).2 = [] ∧
    (addFunds amount goals).1 = sortByOrderIndex goals ∧
    ((addFunds amount goals).1).Perm goals ∧
    addFundsDeposits fresh now amount goals = [] := by
  have h0 := addFundsGo_nonpos (sortByOrderIndex goals) amount [] h
  refine ⟨?_, ?_, ?_, ?_⟩
  · simp [addFunds, h0]
  · simp [addFunds, h0]
  · have h1 : (addFunds amount goals).1 = sortByOrderIndex goals := by
      simp [addFunds, h0]
    rw [h1]
    exact List.perm_insertionSort goalLE goals
  · simp [addFundsDeposits, h0]

/-- C10 witness: `addFunds (-5)` on a concrete two-goal chain allocates
nothing, merely re-sorts, and records no deposit. -/
theorem addFunds_nonpos_witness :
    (-5 : ℚ) ≤ 0 ∧
    ((addFunds (-5) [{ id := "a", title := "A", targetAmount := 100,
                       currentAmount := 20, orderIndex := 1, sideGoals := [] },
                     { id := "b", title := "B", targetAmount := 50,
                       currentAmount := 0, orderIndex := 0, sideGoals := [] }]).2 = [] ∧
     (addFunds (-5) [{ id := "a", title := "A", targetAmount := 100,
                       currentAmount := 20, orderIndex := 1, sideGoals := [] },
                     { id := "b", title := "B", targetAmount := 50,
                       currentAmount := 0, orderIndex := 0, sideGoals := [] }]).1 =
       sortByOrderIndex
         [{ id := "a", title := "A", targetAmount := 100,
            currentAmount := 20, orderIndex := 1, sideGoals := [] },
          { id := "b", title := "B", targetAmount := 50,
            currentAmount := 0, orderIndex := 0, sideGoals := [] }] ∧
     ((addFunds (-5) [{ id := "a", title := "A", targetAmount := 100,
                        currentAmount := 20, orderIndex := 1, sideGoals := [] },
                      { id := "b", title := "B", targetAmount := 50,
                        currentAmount := 0, orderIndex := 0, sideGoals := [] }]).1).Perm
        [{ id := "a", title := "A", targetAmount := 100,
           currentAmount := 20, orderIndex := 1, sideGoals := [] },
         { id := "b", title := "B", targetAmount := 50,
           currentAmount := 0, orderIndex := 0, sideGoals := [] }] ∧
     addFundsDeposits (fun _ => "fresh") "2024-01-01"
       (-5) [{ id := "a", title := "A", targetAmount := 100,
               currentAmount := 20, orderIndex := 1, sideGoals := [] },
             { id := "b", title := "B", targetAmount := 50,
               currentAmount := 0, orderIndex := 0, sideGoals := [] }] = []) := by
  refine ⟨by norm_num, addFunds_nonpos (-5) _ (fun _ => "fresh") "2024-01-01" (by norm_num)⟩

/- ── Lemmas about the unallocated-funds queue ───────────────────── -/

theorem allocateDeposit_surviving_bound (i : String) (a : ℚ)
    (deposits : List UnallocatedDeposit) :
    ∀ e ∈ allocateDeposit i a deposits, e.id = i → 0.01 < e.amountCAD := by
  intro e he hei
  rcases List.mem_filterMap.1 he with ⟨x, hx, hfx⟩
  by_cases hxi : x.id = i
  · rw [if_pos hxi] at hfx
    by_cases hrem : x.amountCAD - a ≤ 0.01
    · rw [if_pos hrem] at hfx; exact absurd hfx (by simp)
    · rw [if_neg hrem] at hfx
      cases hfx
      exact lt_of_not_le hrem
  · rw [if_neg hxi] at hfx
    cases hfx
    exact absurd hei hxi

/-- C2: allocating against a held deposit reduces its `amountCAD` by the
allocated amount; the deposit is removed whenever the remainder is
`≤ 0.01` (in particular when the full balance is allocated), every other
deposit is untouched, and no deposit survives with a balance at or below
the epsilon (hence never zero or negative). Deposit ids are unique per
the data model. -/
theorem allocateDeposit_spec (deposits : List UnallocatedDeposit)
    (d : UnallocatedDeposit) (a : ℚ) (hd : d ∈ deposits)
    (hnd : (deposits.map UnallocatedDeposit.id).Nodup) :
    (d.amountCAD - a ≤ 0.01 →
       ∀ e ∈ allocateDeposit d.id a deposits, e.id ≠ d.id) ∧
    (0.01 < d.amountCAD - a →
       { d with amountCAD := d.amountCAD - a } ∈ allocateDeposit d.id a deposits) ∧
    (a = d.amountCAD → ∀ e ∈ allocateDeposit d.id a deposits, e.id ≠ d.id) ∧
    (∀ e ∈ allocateDeposit d.id a deposits, e.id = d.id →
       e.amountCAD = d.amountCAD - a ∧ 0.01 < e.amountCAD ∧ 0 < e.amountCAD) ∧
    (∀ e ∈ deposits, e.id ≠ d.id → e ∈ allocateDeposit d.id a deposits) ∧
    (∀ e ∈ allocateDeposit d.id a deposits, e.id ≠ d.id → e ∈ deposits) := by
  have hinj := List.inj_on_of_nodup_map hnd
  have hremove : d.amountCAD - a ≤ 0.01 →
      ∀ e ∈ allocateDeposit d.id a deposits, e.id ≠ d.id := by
    intro hle e he hei
    rcases List.mem_filterMap.1 he with ⟨x, hx, hfx⟩
    by_cases hxi : x.id = d.id
    · have hxd : x = d := hinj hx hd hxi
      subst hxd
      rw [if_pos rfl, if_pos hle] at hfx
      exact absurd hfx (by simp)
    · rw [if_neg hxi] at hfx
      cases hfx
      exact hxi hei
  refine ⟨hremove, ?_, ?_, ?_, ?_, ?_⟩
  · intro hgt
    refine List.mem_filterMap.2 ⟨d, hd, ?_⟩
    rw [if_pos rfl, if_neg (not_le.2 hgt)]
  · intro ha
    refine hremove ?_
    rw [ha]
    norm_num
  · intro e he hei
    rcases List.mem_filterMap.1 he with ⟨x, hx, hfx⟩
    by_cases hxi : x.id = d.id
    · have hxd : x = d := hinj hx hd hxi
      subst hxd
      by_cases hrem : x.amountCAD - a ≤ 0.01
      · rw [if_pos rfl, if_pos hrem] at hfx
        exact absurd hfx (by simp)
      · rw [if_pos rfl, if_neg hrem] at hfx
        cases hfx
        have h1 : (0.01 : ℚ) < x.amountCAD - a := lt_of_not_le hrem
        exact ⟨rfl, h1, lt_trans (by norm_num) h1⟩
    · rw [if_neg hxi] at hfx
      cases hfx
      exact absurd hei hxi
  · intro e he hei
    exact List.mem_filterMap.2 ⟨e, he, by rw [if_neg hei]⟩
  · intro e he hei
    rcases List.mem_filterMap.1 he with ⟨x, hx, hfx⟩
    by_cases hxi : x.id = d.id
    · rw [if_pos hxi] at hfx
      by_cases hrem : x.amountCAD - a ≤ 0.01
      · rw [if_pos hrem] at hfx
        exact absurd hfx (by simp)
      · rw [if_neg hrem] at hfx
        cases hfx
        exact absurd hxi hei
    · rw [if_neg hxi] at hfx
      cases hfx
      exact hx


/-- C2 witness: allocating the full 50 CAD balance of a held deposit
removes it from the queue. -/
theorem allocateDeposit_spec_witness :
    exDeposit ∈ [exDeposit] ∧
    (([exDeposit]).map UnallocatedDeposit.id).Nodup ∧
    ((50 : ℚ) = exDeposit.amountCAD →
      ∀ e ∈ allocateDeposit exDeposit.id 50 [exDeposit], e.id ≠ exDeposit.id) := by
  refine ⟨List.mem_singleton.2 rfl, by simp, ?_⟩
  exact (allocateDeposit_spec [exDeposit] exDeposit 50
    (List.mem_singleton.2 rfl) (by simp)).2.2.1


/-- C7 counterexample: a deposit holding 0.005 CAD is removed by
`allocateDeposit(id, 0)`, so `totalUnallocated` drops from 0.005 to 0. -/
theorem allocateDeposit_zero_changes_total :
    totalUnallocated (allocateDeposit "d1" 0 [exTinyDeposit]) ≠
      totalUnallocated [exTinyDeposit] := by
  have h1 : allocateDeposit "d1" 0 [exTinyDeposit] = [] := by
    simp only [allocateDeposit, List.filterMap_cons, exTinyDeposit]
    norm_num
  rw [h1]
  simp only [totalUnallocated, List.foldl_cons, List.foldl_nil, exTinyDeposit]
  norm_num

/-- C7 amended: `allocateDeposit(id, 0)` leaves the queue — hence
`totalUnallocated` — unchanged provided every deposit with that id holds
strictly more than the 0.01 epsilon; in general the first call may
remove an at-or-below-epsilon deposit, and the call is idempotent, so
from the second call on `totalUnallocated` never changes. -/
theorem allocateDeposit_zero_amended (i : String)
    (deposits : List UnallocatedDeposit)
    (h : ∀ d ∈ deposits, d.id = i → 0.01 < d.amountCAD) :
    allocateDeposit i 0 deposits = deposits ∧
    allocateDeposit i 0 (allocateDeposit i 0 deposits) =
      allocateDeposit i 0 deposits ∧
    totalUnallocated (allocateDeposit i 0 deposits) =
      totalUnallocated deposits := by
  have key : ∀ l : List UnallocatedDeposit,
      (∀ d ∈ l, d.id = i → 0.01 < d.amountCAD) →
      allocateDeposit i 0 l = l := by
    intro l hl
    refine filterMap_id_of_mem _ l ?_
    intro x hx
    by_cases hxi : x.id = i
    · have hgt : ¬ x.amountCAD ≤ 0.01 := not_le.2 (hl x hx hxi)
      simp only [if_pos hxi, sub_zero, if_neg hgt]
    · simp only [if_neg hxi]
  have h1 := key deposits h
  refine ⟨h1, ?_, by rw [h1]⟩
  rw [h1, h1]

/- ── addGoal validation (C6) ────────────────────────────────────── -/

/-- C6 counterexample: the store-level `addGoal` performs no validation;
called with a blank title and `targetAmount = -5` it still appends a
goal instead of rejecting the input. -/
theorem addGoal_accepts_invalid_input :
    addGoal [] "id-1" "" (-5) ≠ [] := by
  simp [addGoal]

/-- C6 amended: input validation happens in the UI handler
`handleAddGoal`, which rejects a blank trimmed title, an unparseable
amount, and any amount `≤ 0` before calling `addGoal` (no goal is
appended); on valid input it calls `addGoal` with the trimmed title. -/
theorem handleAddGoal_validates (newTitle : String)
    (parsedAmount : Option ℚ) (goals : List Goal) (newId : String) :
    ((newTitle.trim = "" ∨ parsedAmount = none ∨
        ∀ a : ℚ, parsedAmount = some a → a ≤ 0) →
      handleAddGoal newTitle parsedAmount goals newId = goals) ∧
    (∀ a : ℚ, parsedAmount = some a → newTitle.trim ≠ "" → 0 < a →
      handleAddGoal newTitle parsedAmount goals newId =
        addGoal goals newId newTitle.trim a) := by
  constructor
  · intro h
    rcases h with h | h | h
    · cases parsedAmount with
      | none => rfl
      | some a => simp [handleAddGoal, h]
    · rw [h]
      rfl
    · cases hp : parsedAmount with
      | none => rfl
      | some a => simp [handleAddGoal, h a hp]
  · intro a hp ht ha
    subst hp
    have hcond : ¬ (newTitle.trim = "" ∨ a = 0 ∨ a ≤ 0) := by
      push_neg
      exact ⟨ht, ne_of_gt ha, ha⟩
    simp only [handleAddGoal, if_neg hcond]

/-- C6 amended witness: a parse failure (`NaN` amount) leaves the goal
list untouched. -/
theorem handleAddGoal_validates_witness :
    ("Car".trim = "" ∨ (none : Option ℚ) = none ∨
        ∀ a : ℚ, (none : Option ℚ) = some a → a ≤ 0) ∧
      handleAddGoal "Car" none [] "id-9" = [] :=
  ⟨Or.inr (Or.inl rfl),
   (handleAddGoal_validates "Car" none [] "id-9").1 (Or.inr (Or.inl rfl))⟩

/- ── addFundsToGoal (C3) ────────────────────────────────────────── -/

/-- C3 counterexample: `addFundsToGoal` on a goal id that does not exist
leaves the goal list unchanged but still appends a `GoalDeposit` record
(goalTitle "Unknown") when the amount is positive — an observable
effect, not a silent no-op. -/
theorem addFundsToGoal_missing_not_noop :
    (addFundsToGoal "zzz" 5 [] [] "dep-1" "2024-01-01").1 = [] ∧
    (addFundsToGoal "zzz" 5 [] [] "dep-1" "2024-01-01").2 ≠ [] := by
  constructor
  · rfl
  · have h5 : (0 : ℚ) < 5 := by norm_num
    simp [addFundsToGoal, if_pos h5]

/-- Every pair of `l.zip (l.map f)` is of the form `(x, f x)`. -/
theorem zip_map_pairs {α β : Type} (f : α → β) :
    ∀ l : List α, ∀ q ∈ l.zip (l.map f), q.2 = f q.1 := by
  intro l
  induction l with
  | nil => intro q hq; cases hq
  | cons a t ih =>
      intro q hq
      rw [List.map_cons, List.zip_cons_cons] at hq
      rcases List.mem_cons.1 hq with hq | hq
      · subst hq; rfl
      · exact ih q hq

/-- C3 amended: `addFundsToGoal` deposits `min(amount, capacity)` into
exactly the goals carrying `goalId` (each other goal is untouched) and
appends one `GoalDeposit` for the clamped deposit when it is positive;
when no goal with `goalId` exists the goal list is returned unchanged,
but a `GoalDeposit` record with goalTitle "Unknown" and the full
requested amount is still appended whenever `amount > 0`. -/
theorem addFundsToGoal_amended (goalId : String) (amount : ℚ)
    (goals : List Goal) (deposits : List GoalDeposit)
    (newDepId now : String) :
    ((addFundsToGoal goalId amount goals deposits newDepId now).1.length =
       goals.length) ∧
    (∀ q ∈ goals.zip (addFundsToGoal goalId amount goals deposits newDepId now).1,
       (q.1.id ≠ goalId → q.2 = q.1) ∧
       (q.1.id = goalId →
          q.2 = { q.1 with currentAmount :=
                    q.1.currentAmount + min amount (capacity q.1) })) ∧
    (goals.find? (fun g => g.id = goalId) = none →
       (addFundsToGoal goalId amount goals deposits newDepId now).1 = goals ∧
       (0 < amount →
          (addFundsToGoal goalId amount goals deposits newDepId now).2 =
            deposits ++ [{ id := newDepId, goalId := goalId,
                           goalTitle := "Unknown", amount := amount,
                           date := now, isSideGoal := false }]) ∧
       (amount ≤ 0 →
          (addFundsToGoal goalId amount goals deposits newDepId now).2 =
            deposits)) ∧
    (∀ g, goals.find? (fun g2 => g2.id = goalId) = some g →
       (0 < min amount (capacity g) →
          (addFundsToGoal goalId amount goals deposits newDepId now).2 =
            deposits ++ [{ id := newDepId, goalId := goalId,
                           goalTitle := if g.title = "" then "Unknown" else g.title,
                           amount := min amount (capacity g),
                           date := now, isSideGoal := false }]) ∧
       (min amount (capacity g) ≤ 0 →
          (addFundsToGoal goalId amount goals deposits newDepId now).2 =
            deposits)) := by
  refine ⟨by simp [addFundsToGoal], ?_, ?_, ?_⟩
  · intro q hq
    have hmap : (addFundsToGoal goalId amount goals deposits newDepId now).1 =
        goals.map (fun g => if g.id = goalId then
            { g with currentAmount := g.currentAmount + min amount (capacity g) }
          else g) := rfl
    rw [hmap] at hq
    have h2 := zip_map_pairs
      (fun g => if g.id = goalId then
          { g with currentAmount := g.currentAmount + min amount (capacity g) }
        else g) goals q hq
    constructor
    · intro hne
      rw [h2]
      simp only [if_neg hne]
    · intro heq
      rw [h2]
      simp only [if_pos heq]
  · intro hnone
    have hall : ∀ g ∈ goals, ¬ g.id = goalId := by
      intro g hg
      simpa using List.find?_eq_none.1 hnone g hg
    refine ⟨?_, ?_, ?_⟩
    · have : ∀ x ∈ goals,
          (if x.id = goalId then
            { x with currentAmount := x.currentAmount + min amount (capacity x) }
          else x) = x := by
        intro x hx
        rw [if_neg (hall x hx)]
      simp only [addFundsToGoal]
      exact List.map_congr_left this |>.trans (List.map_id goals)
    · intro hpos
      simp only [addFundsToGoal, hnone, if_pos hpos]
    · intro hle
      simp only [addFundsToGoal, hnone, if_neg (not_lt.2 hle)]
  · intro g hg
    constructor
    · intro hpos
      simp only [addFundsToGoal, hg, if_pos hpos]
    · intro hle
      simp only [addFundsToGoal, hg, if_neg (not_lt.2 hle)]

/-- C3 amended witness: a positive deposit into a missing goal id leaves
the empty goal list unchanged yet appends an "Unknown" deposit record. -/
theorem addFundsToGoal_amended_witness :
    (([] : List Goal).find? (fun g => g.id = "zzz") = none →
      (addFundsToGoal "zzz" 5 [] [] "dep-1" "t").1 = [] ∧
      ((0 : ℚ) < 5 →
        (addFundsToGoal "zzz" 5 [] [] "dep-1" "t").2 =
          [] ++ [{ id := "dep-1", goalId := "zzz", goalTitle := "Unknown",
                   amount := 5, date := "t", isSideGoal := false }]) ∧
      ((5 : ℚ) ≤ 0 →
        (addFundsToGoal "zzz" 5 [] [] "dep-1" "t").2 = [])) ∧
    (addFundsToGoal "zzz" 5 [] [] "dep-1" "t").2 =
      [] ++ [{ id := "dep-1", goalId := "zzz", goalTitle := "Unknown",
               amount := 5, date := "t", isSideGoal := false }] := by
  have h := (addFundsToGoal_amended "zzz" 5 [] [] "dep-1" "t").2.2.1
  exact ⟨h, (h rfl).2.1 (by norm_num)⟩

/- ── addFundsToSideGoal (C4) ────────────────────────────────────── -/



/-- C4: failing input for the deposit-records-the-delta invariant.
`addFundsToSideGoal "p1" "s1" 5` against a side goal at 8 of 10 raises
its `currentAmount` by the delta 2 (to the 10 target), yet the appended
`GoalDeposit` carries the full requested amount 5, not the delta — the
code records `amount`, the claim (and the guarded sibling paths
`addFunds` / `addFundsToGoal`) record the actual deposit. -/
theorem addFundsToSideGoal_records_requested :
    (addFundsToSideGoal "p1" "s1" 5 [exParent] [] "dep-9" "t").1 =
      [{ exParent with sideGoals := [SideGoal.mk "s1" "Laptop" 10 10 []] }] ∧
    ((addFundsToSideGoal "p1" "s1" 5 [exParent] [] "dep-9" "t").2).map
        GoalDeposit.amount = [5] ∧
    ((10 : ℚ) - 8 ≠ 5) := by
  refine ⟨?_, ?_, by norm_num⟩
  · have h : (8 : ℚ) + min 5 (10 - 8) = 10 := by norm_num
    simp only [addFundsToSideGoal, exParent, exSideGoal, List.map_cons,
      List.map_nil, SideGoal.setCurrentAmount]
    simp only [SideGoal.id, SideGoal.targetAmount, SideGoal.currentAmount,
      if_pos]
    simp [h]
  · have h5 : (0 : ℚ) < 5 := by norm_num
    simp [addFundsToSideGoal, if_pos h5]

/-- C7 amended witness: on a queue holding one 50 CAD deposit,
`allocateDeposit("d1", 0)` changes nothing. -/
theorem allocateDeposit_zero_amended_witness :
    (∀ d ∈ [exDeposit], d.id = "d1" → (0.01 : ℚ) < d.amountCAD) ∧
    allocateDeposit "d1" 0 [exDeposit] = [exDeposit] := by
  have h : ∀ d ∈ [exDeposit], d.id = "d1" → (0.01 : ℚ) < d.amountCAD := by
    intro d hd _
    rw [List.mem_singleton.1 hd]
    norm_num [exDeposit]
  exact ⟨h, (allocateDeposit_zero_amended "d1" [exDeposit] h).1⟩

/- ── The waterfall algorithm (C1) ───────────────────────────────── -/

theorem recordSet_fresh (m : List (String × ℚ)) (k : String) (v : ℚ)
    (h : ∀ p ∈ m, p.1 ≠ k) : recordSet m k v = m ++ [(k, v)] := by
  unfold recordSet
  rw [if_neg]
  intro hc
  rcases List.any_eq_true.1 hc with ⟨p, hp, hpk⟩
  exact h p hp (by simpa using hpk)

theorem addFundsGo_acc :
    ∀ (gs : List Goal) (r : ℚ) (alloc : List (String × ℚ)),
      (gs.map Goal.id).Nodup →
      (∀ g ∈ gs, ∀ p ∈ alloc, p.1 ≠ g.id) →
      addFundsGo gs r alloc =
        ((addFundsGo gs r []).1, alloc ++ (addFundsGo gs r []).2.1,
         (addFundsGo gs r []).2.2) := by
  intro gs
  induction gs with
  | nil => intro r alloc _ _; simp [addFundsGo]
  | cons g t ih =>
      intro r alloc hnd hf
      have hnd2 : g.id ∉ t.map Goal.id ∧ (t.map Goal.id).Nodup :=
        List.nodup_cons.1 (by simpa using hnd)
      by_cases hr : r ≤ 0
      · rw [addFundsGo_nonpos _ _ _ hr, addFundsGo_nonpos _ _ _ hr]
        simp
      · have hne : ∀ g2 ∈ t, g.id ≠ g2.id := by
          intro g2 hg2 heq
          exact hnd2.1 (heq ▸ List.mem_map_of_mem Goal.id hg2)
        simp only [addFundsGo, if_neg hr]
        by_cases hdep : 0 < min r (capacity g)
        · rw [if_pos hdep, if_pos hdep]
          have e1 : recordSet alloc g.id (min r (capacity g)) =
              alloc ++ [(g.id, min r (capacity g))] :=
            recordSet_fresh _ _ _
              (fun p hp => hf g (List.mem_cons_self g t) p hp)
          have e2 : recordSet [] g.id (min r (capacity g)) =
              [(g.id, min r (capacity g))] := by
            rw [recordSet_fresh _ _ _ (by intro p hp; cases hp)]
            rfl
          rw [e1, e2]
          have hf1 : ∀ g2 ∈ t, ∀ p ∈ alloc ++ [(g.id, min r (capacity g))],
              p.1 ≠ g2.id := by
            intro g2 hg2 p hp
            rcases List.mem_append.1 hp with hp | hp
            · exact hf g2 (List.mem_cons_of_mem g hg2) p hp
            · rw [List.mem_singleton.1 hp]
              exact hne g2 hg2
          have hf2 : ∀ g2 ∈ t, ∀ p ∈ [(g.id, min r (capacity g))],
              p.1 ≠ g2.id := by
            intro g2 hg2 p hp
            rw [List.mem_singleton.1 hp]
            exact hne g2 hg2
          rw [ih (r - min r (capacity g)) _ hnd2.2 hf1,
            ih (r - min r (capacity g)) _ hnd2.2 hf2]
          simp
        · rw [if_neg hdep, if_neg hdep]
          rw [ih (r - min r (capacity g)) alloc hnd2.2
            (fun g2 hg2 p hp => hf g2 (List.mem_cons_of_mem g hg2) p hp)]

/-- One unfolding step of the waterfall loop on a positive remainder. -/
theorem addFundsGo_cons (g : Goal) (t : List Goal) (r : ℚ)
    (hr : ¬ r ≤ 0) (hnd : ((g :: t).map Goal.id).Nodup) :
    addFundsGo (g :: t) r [] =
      ({ g with currentAmount := g.currentAmount + min r (capacity g) } ::
         (addFundsGo t (r - min r (capacity g)) []).1,
       (if 0 < min r (capacity g) then [(g.id, min r (capacity g))] else []) ++
         (addFundsGo t (r - min r (capacity g)) []).2.1,
       (addFundsGo t (r - min r (capacity g)) []).2.2) := by
  have hnd2 : g.id ∉ t.map Goal.id ∧ (t.map Goal.id).Nodup :=
    List.nodup_cons.1 (by simpa using hnd)
  have hne : ∀ g2 ∈ t, g.id ≠ g2.id := by
    intro g2 hg2 heq
    exact hnd2.1 (heq ▸ List.mem_map_of_mem Goal.id hg2)
  simp only [addFundsGo, if_neg hr]
  by_cases hdep : 0 < min r (capacity g)
  · rw [if_pos hdep]
    have e2 : recordSet [] g.id (min r (capacity g)) =
        [(g.id, min r (capacity g))] := by
      rw [recordSet_fresh _ _ _ (by intro p hp; cases hp)]
      rfl
    rw [e2]
    have hf2 : ∀ g2 ∈ t, ∀ p ∈ [(g.id, min r (capacity g))], p.1 ≠ g2.id := by
      intro g2 hg2 p hp
      rw [List.mem_singleton.1 hp]
      exact hne g2 hg2
    rw [addFundsGo_acc t (r - min r (capacity g)) _ hnd2.2 hf2]
    rw [if_pos hdep]
  · rw [if_neg hdep, if_neg hdep]
    simp

theorem totalCapacity_nonneg (gs : List Goal)
    (h : ∀ g ∈ gs, 0 ≤ capacity g) : 0 ≤ totalCapacity gs := by
  refine List.sum_nonneg ?_
  intro x hx
  rcases List.mem_map.1 hx with ⟨g, hg, hgx⟩
  exact hgx ▸ h g hg

theorem totalCapacity_cons (g : Goal) (t : List Goal) :
    totalCapacity (g :: t) = capacity g + totalCapacity t := by
  simp [totalCapacity]

theorem addFundsGo_remaining :
    ∀ (gs : List Goal) (r : ℚ), 0 ≤ r →
      (∀ g ∈ gs, 0 ≤ capacity g) → (gs.map Goal.id).Nodup →
      (addFundsGo gs r []).2.2 = max (r - totalCapacity gs) 0 := by
  intro gs
  induction gs with
  | nil =>
      intro r hr _ _
      simp only [addFundsGo, totalCapacity, List.map_nil, List.sum_nil, sub_zero]
      exact (max_eq_left hr).symm
  | cons g t ih =>
      intro r hr hcap hnd
      have hT : 0 ≤ totalCapacity t :=
        totalCapacity_nonneg t (fun g2 hg2 => hcap g2 (List.mem_cons_of_mem g hg2))
      have hcg : 0 ≤ capacity g := hcap g (List.mem_cons_self g t)
      by_cases hr0 : r ≤ 0
      · have hr' : r = 0 := le_antisymm hr0 hr
        subst hr'
        rw [addFundsGo_nonpos _ _ _ le_rfl]
        rw [totalCapacity_cons]
        have : (0 : ℚ) - (capacity g + totalCapacity t) ≤ 0 := by linarith
        rw [max_eq_right this]
      · rw [addFundsGo_cons g t r hr0 hnd]
        have hdep0 : 0 ≤ min r (capacity g) :=
          le_min (le_of_lt (not_le.1 hr0)) hcg
        have hrest : 0 ≤ r - min r (capacity g) := by
          have := min_le_left r (capacity g)
          linarith
        rw [ih (r - min r (capacity g)) hrest
          (fun g2 hg2 => hcap g2 (List.mem_cons_of_mem g hg2))
          (List.nodup_cons.1 (by simpa using hnd)).2]
        rw [totalCapacity_cons]
        rcases le_total r (capacity g) with h | h
        · rw [min_eq_left h]
          have h1 : r - r - totalCapacity t ≤ 0 := by linarith
          have h2 : r - (capacity g + totalCapacity t) ≤ 0 := by linarith
          rw [max_eq_right h1, max_eq_right h2]
        · rw [min_eq_right h]
          congr 1
          ring

theorem allocSum_append (a b : List (String × ℚ)) :
    allocSum (a ++ b) = allocSum a + allocSum b := by
  simp [allocSum]

theorem addFundsGo_allocSum :
    ∀ (gs : List Goal) (r : ℚ), 0 ≤ r →
      (∀ g ∈ gs, 0 ≤ capacity g) → (gs.map Goal.id).Nodup →
      allocSum (addFundsGo gs r []).2.1 = r - (addFundsGo gs r []).2.2 := by
  intro gs
  induction gs with
  | nil =>
      intro r _ _ _
      simp [addFundsGo, allocSum]
  | cons g t ih =>
      intro r hr hcap hnd
      have hcg : 0 ≤ capacity g := hcap g (List.mem_cons_self g t)
      by_cases hr0 : r ≤ 0
      · rw [addFundsGo_nonpos _ _ _ hr0]
        simp [allocSum]
      · rw [addFundsGo_cons g t r hr0 hnd]
        have hdep0 : 0 ≤ min r (capacity g) :=
          le_min (le_of_lt (not_le.1 hr0)) hcg
        have hrest : 0 ≤ r - min r (capacity g) := by
          have := min_le_left r (capacity g)
          linarith
        rw [allocSum_append]
        rw [ih (r - min r (capacity g)) hrest
          (fun g2 hg2 => hcap g2 (List.mem_cons_of_mem g hg2))
          (List.nodup_cons.1 (by simpa using hnd)).2]
        by_cases hdep : 0 < min r (capacity g)
        · rw [if_pos hdep]
          simp only [allocSum, List.map_cons, List.map_nil, List.sum_cons,
            List.sum_nil]
          ring
        · have hz : min r (capacity g) = 0 := le_antisymm (not_lt.1 hdep) hdep0
          rw [if_neg hdep, hz]
          simp [allocSum]

theorem addFundsGo_alloc_pos :
    ∀ (gs : List Goal) (r : ℚ),
      (∀ g ∈ gs, 0 ≤ capacity g) → (gs.map Goal.id).Nodup →
      ∀ p ∈ (addFundsGo gs r []).2.1, 0 < p.2 := by
  intro gs
  induction gs with
  | nil => intro r _ _ p hp; cases hp
  | cons g t ih =>
      intro r hcap hnd p hp
      by_cases hr0 : r ≤ 0
      · rw [addFundsGo_nonpos _ _ _ hr0] at hp
        cases hp
      · rw [addFundsGo_cons g t r hr0 hnd] at hp
        rcases List.mem_append.1 hp with hp | hp
        · by_cases hdep : 0 < min r (capacity g)
          · rw [if_pos hdep] at hp
            rw [List.mem_singleton.1 hp]
            exact hdep
          · rw [if_neg hdep] at hp
            cases hp
        · exact ih (r - min r (capacity g))
            (fun g2 hg2 => hcap g2 (List.mem_cons_of_mem g hg2))
            (List.nodup_cons.1 (by simpa using hnd)).2 p hp

/-- Every pair of `l.zip l` has equal components. -/
theorem zip_self_pairs {α : Type} (l : List α) :
    ∀ q ∈ l.zip l, q.2 = q.1 := by
  have h := zip_map_pairs (fun x => x) l
  rw [List.map_id'] at h
  exact h

theorem addFundsGo_zip :
    ∀ (gs : List Goal) (r : ℚ), 0 ≤ r →
      (∀ g ∈ gs, g.currentAmount ≤ g.targetAmount) → (gs.map Goal.id).Nodup →
      ((addFundsGo gs r []).1.length = gs.length) ∧
      (∀ q ∈ gs.zip (addFundsGo gs r []).1,
         q.2 = { q.1 with currentAmount := q.2.currentAmount } ∧
         q.1.currentAmount ≤ q.2.currentAmount ∧
         q.2.currentAmount ≤ q.1.targetAmount ∧
         (capacity q.1 = 0 → q.2 = q.1)) ∧
      ((addFundsGo gs r []).2.1 =
        (gs.zip (addFundsGo gs r []).1).filterMap
          (fun q => if q.2.currentAmount = q.1.currentAmount then none
                    else some (q.1.id, q.2.currentAmount - q.1.currentAmount))) := by
  intro gs
  induction gs with
  | nil =>
      intro r _ _ _
      refine ⟨rfl, ?_, rfl⟩
      intro q hq
      cases hq
  | cons g t ih =>
      intro r hr hval hnd
      have hvg : g.currentAmount ≤ g.targetAmount := hval g (List.mem_cons_self g t)
      have hvt : ∀ g2 ∈ t, g2.currentAmount ≤ g2.targetAmount :=
        fun g2 hg2 => hval g2 (List.mem_cons_of_mem g hg2)
      have hndt : (t.map Goal.id).Nodup :=
        (List.nodup_cons.1 (by simpa using hnd)).2
      by_cases hr0 : r ≤ 0
      · rw [addFundsGo_nonpos _ _ _ hr0]
        refine ⟨rfl, ?_, ?_⟩
        · intro q hq
          have hq1 : q.2 = q.1 := zip_self_pairs (g :: t) q hq
          have hmem : q.1 ∈ g :: t := (List.of_mem_zip hq).1
          rw [hq1]
          exact ⟨rfl, le_refl _, hval q.1 hmem, fun _ => rfl⟩
        · symm
          rw [List.filterMap_eq_nil_iff]
          intro q hq
          rw [zip_self_pairs (g :: t) q hq]
          simp
      · rw [addFundsGo_cons g t r hr0 hnd]
        have hrpos : 0 < r := not_le.1 hr0
        have hcg : 0 ≤ capacity g := sub_nonneg.2 hvg
        have hdep0 : 0 ≤ min r (capacity g) := le_min (le_of_lt hrpos) hcg
        have hrest : 0 ≤ r - min r (capacity g) := by
          have := min_le_left r (capacity g)
          linarith
        have iht := ih (r - min r (capacity g)) hrest hvt hndt
        refine ⟨by simpa using iht.1, ?_, ?_⟩
        · intro q hq
          rw [List.zip_cons_cons] at hq
          rcases List.mem_cons.1 hq with hq | hq
          · subst hq
            refine ⟨rfl, ?_, ?_, ?_⟩
            · show g.currentAmount ≤ g.currentAmount + min r (capacity g)
              linarith
            · show g.currentAmount + min r (capacity g) ≤ g.targetAmount
              have h2 : min r (capacity g) ≤ g.targetAmount - g.currentAmount :=
                min_le_right r (capacity g)
              linarith
            · intro hc0
              have hc0' : capacity g = 0 := hc0
              show { g with currentAmount := g.currentAmount + min r (capacity g) } = g
              rw [hc0', min_eq_right (le_of_lt hrpos), add_zero]
          · exact iht.2.1 q hq
        · rw [List.zip_cons_cons, List.filterMap_cons]
          by_cases hdep : 0 < min r (capacity g)
          · have hne : ¬ (g.currentAmount + min r (capacity g) = g.currentAmount) := by
              intro hc
              have hz : min r (capacity g) = 0 := by linarith
              rw [hz] at hdep
              exact lt_irrefl 0 hdep
            rw [if_pos hdep, iht.2.2]
            simp [hne]
          · have hz : min r (capacity g) = 0 := le_antisymm (not_lt.1 hdep) hdep0
            rw [if_neg hdep, iht.2.2]
            simp [hz]

/-- For a nonnegative bound, `a - max (a - b) 0 = min a b`. -/
theorem sub_max_sub_zero (a b : ℚ) : a - max (a - b) 0 = min a b := by
  rcases le_total a b with h | h
  · rw [max_eq_right (by linarith), min_eq_left h]
    ring
  · rw [max_eq_left (by linarith), min_eq_right h]
    ring

/-- C1: the waterfall `addFunds` walks the goals in ascending
`orderIndex` (the processed list is the stable sort of the goals, sorted
by `goalLE`), rewrites each processed goal only in its `currentAmount`,
never pushes a goal above its target or below its current amount, gives
nothing to a zero-capacity goal, returns an allocation record holding
exactly the goals whose `currentAmount` changed (with the positive
deposit as value), and the allocation values sum to `min A (total
capacity)` — hence `≤ A`, with equality whenever the chain capacity is
at least `A`. Goal ids are unique per the data model. -/
theorem addFunds_waterfall (goals : List Goal) (A : ℚ)
    (hvalid : ∀ g ∈ goals, 0 ≤ g.currentAmount ∧ g.currentAmount ≤ g.targetAmount)
    (hA : 0 < A)
    (hids : (goals.map Goal.id).Nodup) :
    List.Pairwise goalLE (sortByOrderIndex goals) ∧
    (sortByOrderIndex goals).Perm goals ∧
    (addFunds A goals).1.length = goals.length ∧
    (∀ q ∈ (sortByOrderIndex goals).zip (addFunds A goals).1,
       q.2 = { q.1 with currentAmount := q.2.currentAmount } ∧
       q.1.currentAmount ≤ q.2.currentAmount ∧
       q.2.currentAmount ≤ q.1.targetAmount ∧
       (capacity q.1 = 0 → q.2 = q.1)) ∧
    ((addFunds A goals).2 =
      ((sortByOrderIndex goals).zip (addFunds A goals).1).filterMap
        (fun q => if q.2.currentAmount = q.1.currentAmount then none
                  else some (q.1.id, q.2.currentAmount - q.1.currentAmount))) ∧
    (∀ p ∈ (addFunds A goals).2, 0 < p.2) ∧
    allocSum (addFunds A goals).2 = min A (totalCapacity goals) ∧
    allocSum (addFunds A goals).2 ≤ A ∧
    (A ≤ totalCapacity goals → allocSum (addFunds A goals).2 = A) := by
  have hperm : (sortByOrderIndex goals).Perm goals :=
    List.perm_insertionSort goalLE goals
  have hvals : ∀ g ∈ sortByOrderIndex goals,
      g.currentAmount ≤ g.targetAmount := by
    intro g hg
    exact (hvalid g (hperm.mem_iff.1 hg)).2
  have hcaps : ∀ g ∈ sortByOrderIndex goals, 0 ≤ capacity g := by
    intro g hg
    exact sub_nonneg.2 (hvals g hg)
  have hnds : ((sortByOrderIndex goals).map Goal.id).Nodup :=
    ((hperm.map Goal.id).nodup_iff).2 hids
  have hcapeq : totalCapacity (sortByOrderIndex goals) = totalCapacity goals :=
    (hperm.map capacity).sum_eq
  have hzip := addFundsGo_zip (sortByOrderIndex goals) A (le_of_lt hA) hvals hnds
  have hsum := addFundsGo_allocSum (sortByOrderIndex goals) A (le_of_lt hA)
    hcaps hnds
  have hrem := addFundsGo_remaining (sortByOrderIndex goals) A (le_of_lt hA)
    hcaps hnds
  have hlen : (sortByOrderIndex goals).length = goals.length := hperm.length_eq
  have e1 : (addFunds A goals).1 = (addFundsGo (sortByOrderIndex goals) A []).1 :=
    rfl
  have e2 : (addFunds A goals).2 =
      (addFundsGo (sortByOrderIndex goals) A []).2.1 := rfl
  have hmin : allocSum (addFunds A goals).2 = min A (totalCapacity goals) := by
    rw [e2, hsum, hrem, ← hcapeq]
    exact sub_max_sub_zero A (totalCapacity (sortByOrderIndex goals))
  refine ⟨List.sorted_insertionSort goalLE goals, hperm, ?_, ?_, ?_, ?_, hmin, ?_, ?_⟩
  · rw [e1, hzip.1, hlen]
  · intro q hq
    exact hzip.2.1 q (by rw [e1] at hq; exact hq)
  · rw [e2, e1]
    exact hzip.2.2
  · intro p hp
    exact addFundsGo_alloc_pos (sortByOrderIndex goals) A hcaps hnds p
      (by rw [e2] at hp; exact hp)
  · rw [hmin]
    exact min_le_left _ _
  · intro hcap
    rw [hmin]
    exact min_eq_left hcap


/-- C1 witness: on the specification scenario (`addFunds 250` over the
100/200/300 chain) the hypotheses hold concretely and the allocation
conserves the full amount, the chain capacity 600 being at least 250. -/
theorem addFunds_waterfall_witness :
    (∀ g ∈ exChain, 0 ≤ g.currentAmount ∧ g.currentAmount ≤ g.targetAmount) ∧
    (0 : ℚ) < 250 ∧
    (exChain.map Goal.id).Nodup ∧
    allocSum (addFunds 250 exChain).2 = min 250 (totalCapacity exChain) ∧
    ((250 : ℚ) ≤ totalCapacity exChain → allocSum (addFunds 250 exChain).2 = 250) := by
  have h1 : ∀ g ∈ exChain, 0 ≤ g.currentAmount ∧ g.currentAmount ≤ g.targetAmount := by
    intro g hg
    simp only [exChain, List.mem_cons, List.mem_singleton] at hg
    rcases hg with h | h | h | h
    all_goals first
      | (rw [h]; constructor <;> norm_num)
      | cases h
  have h2 : (0 : ℚ) < 250 := by norm_num
  have h3 : (exChain.map Goal.id).Nodup := by
    simp [exChain]
  have h := addFunds_waterfall exChain 250 h1 h2 h3
  exact ⟨h1, h2, h3, h.2.2.2.2.2.2.1, h.2.2.2.2.2.2.2.2⟩

/- ── Goal chain indexing (C5) ───────────────────────────────────── -/

theorem sortByOrderIndex_length (l : List Goal) :
    (sortByOrderIndex l).length = l.length :=
  (List.perm_insertionSort goalLE l).length_eq

theorem maxOrder_ge_init :
    ∀ (l : List Goal) (a : Int),
      a ≤ l.foldl (fun m g => max m g.orderIndex) a := by
  intro l
  induction l with
  | nil => intro a; exact le_refl a
  | cons g t ih =>
      intro a
      exact le_trans (le_max_left a g.orderIndex) (ih (max a g.orderIndex))

theorem maxOrder_ge_mem :
    ∀ (l : List Goal) (a : Int) (g : Goal), g ∈ l →
      g.orderIndex ≤ l.foldl (fun m g => max m g.orderIndex) a := by
  intro l
  induction l with
  | nil => intro a g hg; cases hg
  | cons g2 t ih =>
      intro a g hg
      rcases List.mem_cons.1 hg with hg | hg
      · subst hg
        exact le_trans (le_max_right a g.orderIndex)
          (maxOrder_ge_init t (max a g.orderIndex))
      · exact ih (max a g2.orderIndex) g hg

theorem maxOrder_cases :
    ∀ (l : List Goal) (a : Int),
      l.foldl (fun m g => max m g.orderIndex) a = a ∨
      ∃ g ∈ l, l.foldl (fun m g => max m g.orderIndex) a = g.orderIndex := by
  intro l
  induction l with
  | nil => intro a; exact Or.inl rfl
  | cons g t ih =>
      intro a
      rcases ih (max a g.orderIndex) with h | ⟨g2, hg2, h⟩
      · rcases max_choice a g.orderIndex with hm | hm
        · exact Or.inl (by rw [List.foldl_cons, h, hm])
        · exact Or.inr ⟨g, List.mem_cons_self g t, by rw [List.foldl_cons, h, hm]⟩
      · exact Or.inr ⟨g2, List.mem_cons_of_mem g hg2, by rw [List.foldl_cons, h]⟩

/-- C5: `addGoal` appends its new goal with `orderIndex` strictly above
every existing one, namely `maxOrder + 1` (which is 0 on an empty
chain), and preserves the `{0..n-1}` permutation invariant; `removeGoal`
reindexes the remaining goals to exactly `0..n-1`, keeping each
remaining goal intact apart from `orderIndex` and arranging them by
their previous `orderIndex` (relative order preserved: the committed
list is a stable sort of the survivors by the old index). -/
theorem goal_index_contiguous (goals : List Goal) (newId title : String)
    (ta : ℚ) (goalId : String) :
    ((addGoal goals newId title ta).map Goal.orderIndex =
       goals.map Goal.orderIndex ++ [maxOrder goals + 1]) ∧
    (∀ g ∈ goals, g.orderIndex < maxOrder goals + 1) ∧
    (goals = [] → maxOrder goals + 1 = 0) ∧
    (contiguous goals → contiguous (addGoal goals newId title ta)) ∧
    ((removeGoal goalId goals).map Goal.orderIndex =
       (List.range (goals.filter (fun g => g.id ≠ goalId)).length).map
         (fun k : Nat => (k : Int))) ∧
    ((removeGoal goalId goals).map stripOrder =
       (sortByOrderIndex (goals.filter (fun g => g.id ≠ goalId))).map stripOrder) ∧
    ((sortByOrderIndex (goals.filter (fun g => g.id ≠ goalId))).Perm
       (goals.filter (fun g => g.id ≠ goalId))) ∧
    List.Pairwise goalLE (sortByOrderIndex (goals.filter (fun g => g.id ≠ goalId))) := by
  have hmapeq : (addGoal goals newId title ta).map Goal.orderIndex =
      goals.map Goal.orderIndex ++ [maxOrder goals + 1] := by
    simp [addGoal]
  refine ⟨hmapeq, ?_, ?_, ?_, ?_, ?_,
    List.perm_insertionSort goalLE _, List.sorted_insertionSort goalLE _⟩
  · intro g hg
    exact lt_of_le_of_lt (maxOrder_ge_mem goals (-1) g hg) (lt_add_one _)
  · intro h
    subst h
    rfl
  · intro h
    unfold contiguous at h ⊢
    rw [hmapeq]
    have hlen : (addGoal goals newId title ta).length = goals.length + 1 := by
      simp [addGoal]
    rw [hlen]
    by_cases hn : goals.length = 0
    · have hnil : goals = [] := List.length_eq_zero.1 hn
      subst hnil
      simp [maxOrder, List.range_succ]
    · have hpos : 0 < goals.length := Nat.pos_of_ne_zero hn
      have hm1 : ((goals.length - 1 : Nat) : Int) ∈ goals.map Goal.orderIndex := by
        refine h.mem_iff.2 (List.mem_map.2 ⟨goals.length - 1, ?_, rfl⟩)
        rw [List.mem_range]
        omega
      rcases List.mem_map.1 hm1 with ⟨g1, hg1, he1⟩
      have hle1 : ((goals.length - 1 : Nat) : Int) ≤ maxOrder goals := by
        rw [← he1]
        exact maxOrder_ge_mem goals (-1) g1 hg1
      have hle2 : maxOrder goals ≤ ((goals.length - 1 : Nat) : Int) := by
        rcases maxOrder_cases goals (-1) with hc | ⟨g2, hg2, hc⟩
        · unfold maxOrder
          rw [hc]
          omega
        · unfold maxOrder
          rw [hc]
          have hmm : g2.orderIndex ∈ goals.map Goal.orderIndex :=
            List.mem_map_of_mem Goal.orderIndex hg2
          have hmm2 := h.mem_iff.1 hmm
          rcases List.mem_map.1 hmm2 with ⟨k, hk, hke⟩
          rw [List.mem_range] at hk
          omega
      have hmax : maxOrder goals + 1 = (goals.length : Int) := by
        have hg := le_antisymm hle2 hle1
        omega
      rw [hmax]
      have hr : List.range (goals.length + 1) =
          List.range goals.length ++ [goals.length] :=
        List.range_succ goals.length
      rw [hr, List.map_append]
      exact h.append_right [((goals.length : Nat) : Int)]
  · unfold removeGoal
    rw [List.map_map]
    show ((sortByOrderIndex (goals.filter (fun g => g.id ≠ goalId))).enum).map
        (fun p : Nat × Goal => (p.1 : Int)) = _
    rw [List.enum_eq_zip_range]
    rw [show (fun p : Nat × Goal => (p.1 : Int)) =
        ((fun k : Nat => (k : Int)) ∘ Prod.fst) from rfl]
    rw [← List.map_map]
    rw [List.map_fst_zip _ _ (by rw [List.length_range])]
    rw [sortByOrderIndex_length]
  · unfold removeGoal
    rw [List.map_map]
    show ((sortByOrderIndex (goals.filter (fun g => g.id ≠ goalId))).enum).map
        (fun p : Nat × Goal => stripOrder p.2) = _
    rw [show (fun p : Nat × Goal => stripOrder p.2) =
        (stripOrder ∘ Prod.snd) from rfl]
    rw [← List.map_map, List.enum_map_snd]


/-- C5 witness: on a concrete 0/1-indexed chain, adding a goal keeps
the indices a permutation of `0..n`, and removing goal "a" reindexes
the survivor to exactly index 0. -/
theorem goal_index_contiguous_witness :
    contiguous exPair ∧
    contiguous (addGoal exPair "n1" "N" 10) ∧
    (removeGoal "a" exPair).map Goal.orderIndex =
      (List.range ((exPair.filter (fun g => g.id ≠ "a")).length)).map
        (fun k : Nat => (k : Int)) := by
  have hc : contiguous exPair := by
    unfold contiguous exPair
    decide
  exact ⟨hc, (goal_index_contiguous exPair "n1" "N" 10 "a").2.2.2.1 hc,
    (goal_index_contiguous exPair "n1" "N" 10 "a").2.2.2.2.1⟩

/- ── Expense merge (C8) ─────────────────────────────────────────── -/

theorem contains_id_iff (current : List SpendingEntry) (sid : String) :
    (current.map (fun e => e.id)).contains sid = true ↔
      ∃ e ∈ current, e.id = sid := by
  constructor
  · intro h
    exact List.mem_map.1 (List.elem_iff.1 h)
  · intro ⟨e, he, heq⟩
    exact List.elem_iff.2 (List.mem_map.2 ⟨e, he, heq⟩)

theorem mergeAppExpenses_eq (remote : List AppExpense)
    (current : List SpendingEntry) :
    mergeAppExpenses remote current =
      current ++ remote.filterMap (fun ae =>
        if (current.map (fun e => e.id)).contains ("app-" ++ ae.id) then none
        else some (mkSyncedEntry ae)) := by
  unfold mergeAppExpenses
  by_cases h : remote.isEmpty
  · rw [if_pos h]
    have h2 : remote = [] := by simpa using h
    subst h2
    simp
  · rw [if_neg h]
    by_cases h2 : (remote.filterMap (fun ae =>
        if (current.map (fun e => e.id)).contains ("app-" ++ ae.id) then none
        else some (mkSyncedEntry ae))).isEmpty
    · rw [if_pos h2]
      have h3 : remote.filterMap (fun ae =>
          if (current.map (fun e => e.id)).contains ("app-" ++ ae.id) then none
          else some (mkSyncedEntry ae)) = [] := by simpa using h2
      rw [h3, List.append_nil]
    · rw [if_neg h2]

theorem mergeNew_count (current : List SpendingEntry) :
    ∀ remote : List AppExpense,
      (remote.map (fun ae => "app-" ++ ae.id)).Nodup →
      ∀ ae ∈ remote, (∀ e ∈ current, e.id ≠ "app-" ++ ae.id) →
      (remote.filterMap (fun ae2 =>
          if (current.map (fun e => e.id)).contains ("app-" ++ ae2.id) then none
          else some (mkSyncedEntry ae2))).countP
        (fun e => e.id = "app-" ++ ae.id) = 1 := by
  intro remote
  induction remote with
  | nil => intro _ ae hae; cases hae
  | cons a rest ih =>
      intro hnd ae hae habs
      have hnd2 : ("app-" ++ a.id) ∉ rest.map (fun ae2 => "app-" ++ ae2.id) ∧
          (rest.map (fun ae2 => "app-" ++ ae2.id)).Nodup :=
        List.nodup_cons.1 (by simpa using hnd)
      rcases List.mem_cons.1 hae with hae | hae
      · subst hae
        have hcf : ¬ ((current.map (fun e => e.id)).contains ("app-" ++ ae.id) = true) := by
          intro hc
          rcases (contains_id_iff current _).1 hc with ⟨e, he, heq⟩
          exact habs e he heq
        rw [List.filterMap_cons, if_neg hcf]
        rw [List.countP_cons]
        have h0 : (rest.filterMap (fun ae2 =>
            if (current.map (fun e => e.id)).contains ("app-" ++ ae2.id) then none
            else some (mkSyncedEntry ae2))).countP
            (fun e => e.id = "app-" ++ ae.id) = 0 := by
          rw [List.countP_eq_zero]
          intro x hx
          rcases List.mem_filterMap.1 hx with ⟨ae2, hae2, hfx⟩
          by_cases hc : (current.map (fun e => e.id)).contains ("app-" ++ ae2.id) = true
          · rw [if_pos hc] at hfx
            cases hfx
          · rw [if_neg hc] at hfx
            cases hfx
            have hne : "app-" ++ ae2.id ≠ "app-" ++ ae.id := by
              intro hcontra
              exact hnd2.1 (hcontra ▸
                List.mem_map_of_mem (fun ae2 => "app-" ++ ae2.id) hae2)
            simp [mkSyncedEntry, hne]
        rw [h0]
        simp [mkSyncedEntry]
      · have hne : "app-" ++ a.id ≠ "app-" ++ ae.id := by
          intro hcontra
          exact hnd2.1 (hcontra ▸
            List.mem_map_of_mem (fun ae2 => "app-" ++ ae2.id) hae)
        rw [List.filterMap_cons]
        by_cases hc : (current.map (fun e => e.id)).contains ("app-" ++ a.id) = true
        · rw [if_pos hc]
          exact ih hnd2.2 ae hae habs
        · rw [if_neg hc, List.countP_cons]
          rw [ih hnd2.2 ae hae habs]
          simp [mkSyncedEntry, hne]

/-- C8: merging the expense list of the counterpart app skips every remote
expense whose namespaced id `"app-" + remoteId` is already present
locally (the local ledger is a left factor of the result, so existing
entries are unchanged and no duplicate row appears), and appends exactly
one new `SpendingEntry` with that namespaced id for every remote expense
not yet present. Remote expense ids are unique per the counterpart
data model. -/
theorem mergeAppExpenses_spec (remote : List AppExpense)
    (current : List SpendingEntry)
    (hrem : (remote.map (fun ae => "app-" ++ ae.id)).Nodup) :
    (∃ tail, mergeAppExpenses remote current = current ++ tail) ∧
    (∀ ae ∈ remote, (∃ e ∈ current, e.id = "app-" ++ ae.id) →
       countId (mergeAppExpenses remote current) ("app-" ++ ae.id) =
         countId current ("app-" ++ ae.id)) ∧
    (∀ ae ∈ remote, (∀ e ∈ current, e.id ≠ "app-" ++ ae.id) →
       countId (mergeAppExpenses remote current) ("app-" ++ ae.id) = 1 ∧
       mkSyncedEntry ae ∈ mergeAppExpenses remote current) := by
  rw [mergeAppExpenses_eq]
  refine ⟨⟨_, rfl⟩, ?_, ?_⟩
  · intro ae hae hex
    unfold countId
    rw [List.countP_append]
    have h0 : (remote.filterMap (fun ae2 =>
        if (current.map (fun e => e.id)).contains ("app-" ++ ae2.id) then none
        else some (mkSyncedEntry ae2))).countP
        (fun e => e.id = "app-" ++ ae.id) = 0 := by
      rw [List.countP_eq_zero]
      intro x hx
      rcases List.mem_filterMap.1 hx with ⟨ae2, hae2, hfx⟩
      by_cases hc : (current.map (fun e => e.id)).contains ("app-" ++ ae2.id) = true
      · rw [if_pos hc] at hfx
        cases hfx
      · rw [if_neg hc] at hfx
        cases hfx
        have hne : "app-" ++ ae2.id ≠ "app-" ++ ae.id := by
          intro hcontra
          exact hc ((contains_id_iff current _).2 (hcontra ▸ hex))
        simp [mkSyncedEntry, hne]
    rw [h0]
    rfl
  · intro ae hae habs
    constructor
    · unfold countId
      rw [List.countP_append]
      have hcz : current.countP (fun e => e.id = "app-" ++ ae.id) = 0 := by
        rw [List.countP_eq_zero]
        intro e he
        simp [habs e he]
      rw [hcz, mergeNew_count current remote hrem ae hae habs]
    · refine List.mem_append.2 (Or.inr ?_)
      refine List.mem_filterMap.2 ⟨ae, hae, ?_⟩
      have hcf : ¬ ((current.map (fun e => e.id)).contains ("app-" ++ ae.id) = true) := by
        intro hc
        rcases (contains_id_iff current _).1 hc with ⟨e, he, heq⟩
        exact habs e he heq
      rw [if_neg hcf]






/-- C8 witness: the scenario merge leaves exactly one `app-123` row and
appends exactly one `app-456` row. -/
theorem mergeAppExpenses_spec_witness :
    ((exRemoteExpenses.map (fun ae => "app-" ++ ae.id)).Nodup) ∧
    countId (mergeAppExpenses exRemoteExpenses exLedger) "app-123" =
      countId exLedger "app-123" ∧
    countId (mergeAppExpenses exRemoteExpenses exLedger) "app-456" = 1 := by
  have hnd : (exRemoteExpenses.map (fun ae => "app-" ++ ae.id)).Nodup := by
    simp [exRemoteExpenses, exRemote123, exRemote456]
  have h := mergeAppExpenses_spec exRemoteExpenses exLedger hnd
  refine ⟨hnd, ?_, ?_⟩
  · exact h.2.1 exRemote123 (by simp [exRemoteExpenses])
      ⟨exEntry123, by simp [exLedger], by decide⟩
  · refine (h.2.2 exRemote456 (by simp [exRemoteExpenses]) ?_).1
    intro e he
    rw [show e = exEntry123 from by simpa [exLedger] using he]
    decide


/- ── Bill merge (C9) ────────────────────────────────────────────── -/

theorem bfind_nil (sid : String) : bfind [] sid = none := rfl

theorem bfind_cons_pos (x : Bill) (t : List Bill) (sid : String)
    (h : x.id = sid) : bfind (x :: t) sid = some x :=
  List.find?_cons_of_pos t (by simpa using h)

theorem bfind_cons_neg (x : Bill) (t : List Bill) (sid : String)
    (h : ¬ x.id = sid) : bfind (x :: t) sid = bfind t sid :=
  List.find?_cons_of_neg t (by simpa using h)

theorem bfind_some_id (m : List Bill) (sid : String) (b : Bill)
    (h : bfind m sid = some b) : b.id = sid := by
  have := List.find?_some h
  simpa using this

theorem bfind_mem (m : List Bill) (sid : String) (b : Bill)
    (h : bfind m sid = some b) : b ∈ m :=
  List.mem_of_find?_eq_some h

theorem bfind_append (l1 l2 : List Bill) (sid : String) :
    bfind (l1 ++ l2) sid =
      (match bfind l1 sid with
       | some x => some x
       | none => bfind l2 sid) := by
  induction l1 with
  | nil => rfl
  | cons a t ih =>
      by_cases hp : a.id = sid
      · rw [List.cons_append, bfind_cons_pos a _ sid hp, bfind_cons_pos a t sid hp]
      · rw [List.cons_append, bfind_cons_neg a _ sid hp, bfind_cons_neg a t sid hp,
          ih]

theorem bfind_map_update_other (m : List Bill) (k : String) (v : Bill)
    (hv : v.id = k) (sid : String) (h : ¬ k = sid) :
    bfind (m.map (fun x => if x.id = k then v else x)) sid = bfind m sid := by
  induction m with
  | nil => rfl
  | cons x t ih =>
      rw [List.map_cons]
      by_cases hx : x.id = k
      · rw [if_pos hx]
        have h1 : ¬ v.id = sid := by rw [hv]; exact h
        have h2 : ¬ x.id = sid := by rw [hx]; exact h
        rw [bfind_cons_neg v _ sid h1, bfind_cons_neg x t sid h2, ih]
      · rw [if_neg hx]
        by_cases hps : x.id = sid
        · rw [bfind_cons_pos x _ sid hps, bfind_cons_pos x t sid hps]
        · rw [bfind_cons_neg x _ sid hps, bfind_cons_neg x t sid hps, ih]

theorem bfind_map_update_self (m : List Bill) (k : String) (v : Bill)
    (hv : v.id = k) :
    ∀ b, bfind m k = some b →
      bfind (m.map (fun x => if x.id = k then v else x)) k = some v := by
  induction m with
  | nil => intro b hb; cases hb
  | cons x t ih =>
      intro b hb
      rw [List.map_cons]
      by_cases hx : x.id = k
      · rw [if_pos hx]
        exact bfind_cons_pos v _ k hv
      · rw [if_neg hx]
        rw [bfind_cons_neg x t k hx] at hb
        rw [bfind_cons_neg x _ k hx]
        exact ih b hb

theorem bfind_none_not_any (m : List Bill) (sid : String)
    (h : bfind m sid = none) :
    ¬ (m.any (fun x => x.id = sid) = true) := by
  intro hc
  rcases List.any_eq_true.1 hc with ⟨x, hx, hpx⟩
  have := List.find?_eq_none.1 h x hx
  exact this hpx

theorem mapSetBill_absent (m : List Bill) (b : Bill)
    (h : ¬ (m.any (fun x => x.id = b.id) = true)) :
    mapSetBill m b = m ++ [b] := by
  unfold mapSetBill
  rw [if_neg h]

theorem mergeBillStep_find_other (m : List Bill) (c : Bool)
    (ar : AppRecurring) (sid : String)
    (h : ¬ ar.active = some false → ¬ "app-" ++ ar.id = sid) :
    bfind (mergeBillStep (m, c) ar).1 sid = bfind m sid := by
  by_cases hact : ar.active = some false
  · simp only [mergeBillStep, if_pos hact]
  · have hne : ¬ "app-" ++ ar.id = sid := h hact
    cases hfind : bfind m ("app-" ++ ar.id) with
    | none =>
        simp only [mergeBillStep, if_neg hact, hfind]
        show bfind (mapSetBill m (billFromRecurring ar)) sid = bfind m sid
        rw [mapSetBill_absent m _ (bfind_none_not_any m _ hfind), bfind_append]
        have hnb : ¬ (billFromRecurring ar).id = sid := hne
        have hone : bfind [billFromRecurring ar] sid = none := by
          rw [bfind_cons_neg _ _ sid hnb]
          rfl
        rw [hone]
        cases hm : bfind m sid with
        | none => rfl
        | some x => rfl
    | some existing =>
        have hid : existing.id = "app-" ++ ar.id := bfind_some_id m _ existing hfind
        simp only [mergeBillStep, if_neg hact, hfind]
        by_cases hdiff : existing.amount ≠ ar.amount ∨ existing.name ≠ ar.name
        · rw [if_pos hdiff]
          show bfind (mapSetBill m (updatedBill existing ar)) sid = bfind m sid
          unfold mapSetBill
          have hidv : (updatedBill existing ar).id = existing.id := rfl
          rw [hidv]
          have hany : m.any (fun x => x.id = existing.id) = true :=
            List.any_eq_true.2 ⟨existing, bfind_mem m _ existing hfind, by simp⟩
          rw [if_pos hany]
          refine bfind_map_update_other m existing.id (updatedBill existing ar)
            rfl sid ?_
          rw [hid]
          exact hne
        · rw [if_neg hdiff]

theorem mergeBillStep_find_self (m : List Bill) (c : Bool)
    (ar : AppRecurring) (hact : ¬ ar.active = some false) :
    bfind (mergeBillStep (m, c) ar).1 ("app-" ++ ar.id) =
      some (match bfind m ("app-" ++ ar.id) with
            | some b => updatedBill b ar
            | none => billFromRecurring ar) := by
  cases hfind : bfind m ("app-" ++ ar.id) with
  | none =>
      simp only [mergeBillStep, if_neg hact, hfind]
      show bfind (mapSetBill m (billFromRecurring ar)) ("app-" ++ ar.id) =
        some (billFromRecurring ar)
      rw [mapSetBill_absent m _ (bfind_none_not_any m _ hfind), bfind_append,
        hfind]
      exact bfind_cons_pos _ _ _ rfl
  | some existing =>
      have hid : existing.id = "app-" ++ ar.id := bfind_some_id m _ existing hfind
      simp only [mergeBillStep, if_neg hact, hfind]
      by_cases hdiff : existing.amount ≠ ar.amount ∨ existing.name ≠ ar.name
      · rw [if_pos hdiff]
        show bfind (mapSetBill m (updatedBill existing ar)) ("app-" ++ ar.id) =
          some (updatedBill existing ar)
        unfold mapSetBill
        have hidv : (updatedBill existing ar).id = existing.id := rfl
        rw [hidv]
        have hany : m.any (fun x => x.id = existing.id) = true :=
          List.any_eq_true.2 ⟨existing, bfind_mem m _ existing hfind, by simp⟩
        rw [if_pos hany]
        have hfind2 : bfind m existing.id = some existing := by
          rw [hid]
          exact hfind
        have hres := bfind_map_update_self m existing.id
          (updatedBill existing ar) rfl existing hfind2
        rw [← hid]
        exact hres
      · rw [if_neg hdiff]
        push_neg at hdiff
        have hb : updatedBill existing ar = existing := by
          unfold updatedBill
          rw [← hdiff.1, ← hdiff.2]
        rw [hb]
        exact hfind

theorem mergeBillStep_mem (m : List Bill) (c : Bool) (ar : AppRecurring)
    (b : Bill) (hb : b ∈ m)
    (h : ¬ ar.active = some false → ¬ "app-" ++ ar.id = b.id) :
    b ∈ (mergeBillStep (m, c) ar).1 := by
  by_cases hact : ar.active = some false
  · simp only [mergeBillStep, if_pos hact]
    exact hb
  · have hne : ¬ "app-" ++ ar.id = b.id := h hact
    cases hfind : bfind m ("app-" ++ ar.id) with
    | none =>
        simp only [mergeBillStep, if_neg hact, hfind]
        show b ∈ mapSetBill m (billFromRecurring ar)
        rw [mapSetBill_absent m _ (bfind_none_not_any m _ hfind)]
        exact List.mem_append.2 (Or.inl hb)
    | some existing =>
        have hid : existing.id = "app-" ++ ar.id := bfind_some_id m _ existing hfind
        simp only [mergeBillStep, if_neg hact, hfind]
        by_cases hdiff : existing.amount ≠ ar.amount ∨ existing.name ≠ ar.name
        · rw [if_pos hdiff]
          show b ∈ mapSetBill m (updatedBill existing ar)
          unfold mapSetBill
          have hidv : (updatedBill existing ar).id = existing.id := rfl
          rw [hidv]
          have hany : m.any (fun x => x.id = existing.id) = true :=
            List.any_eq_true.2 ⟨existing, bfind_mem m _ existing hfind, by simp⟩
          rw [if_pos hany]
          refine List.mem_map.2 ⟨b, hb, ?_⟩
          rw [if_neg]
          rw [hid]
          intro hc
          exact hne hc.symm
        · rw [if_neg hdiff]
          exact hb


theorem foldRem_find_other :
    ∀ (rem : List AppRecurring) (m : List Bill) (c : Bool) (sid : String),
      (∀ ar ∈ rem, ¬ ar.active = some false → ¬ "app-" ++ ar.id = sid) →
      bfind (rem.foldl mergeBillStep (m, c)).1 sid = bfind m sid := by
  intro rem
  induction rem with
  | nil => intro m c sid _; rfl
  | cons a t ih =>
      intro m c sid h
      rw [List.foldl_cons]
      have hpair : mergeBillStep (m, c) a =
          ((mergeBillStep (m, c) a).1, (mergeBillStep (m, c) a).2) := rfl
      rw [hpair]
      rw [ih (mergeBillStep (m, c) a).1 (mergeBillStep (m, c) a).2 sid
        (fun ar har => h ar (List.mem_cons_of_mem a har))]
      exact mergeBillStep_find_other m c a sid (h a (List.mem_cons_self a t))

theorem foldRem_find_self :
    ∀ (rem : List AppRecurring) (m : List Bill) (c : Bool),
      (rem.filterMap activeSid).Nodup →
      ∀ ar ∈ rem, ¬ ar.active = some false →
      bfind (rem.foldl mergeBillStep (m, c)).1 ("app-" ++ ar.id) =
        some (match bfind m ("app-" ++ ar.id) with
              | some b => updatedBill b ar
              | none => billFromRecurring ar) := by
  intro rem
  induction rem with
  | nil => intro m c _ ar har; cases har
  | cons a t ih =>
      intro m c hnd ar har hact
      rw [List.foldl_cons]
      have hpair : mergeBillStep (m, c) a =
          ((mergeBillStep (m, c) a).1, (mergeBillStep (m, c) a).2) := rfl
      rcases List.mem_cons.1 har with hae | hae
      · subst hae
        have hf : activeSid ar = some ("app-" ++ ar.id) := by
          unfold activeSid
          rw [if_neg hact]
        have hndc : (("app-" ++ ar.id) :: t.filterMap activeSid).Nodup := by
          have h0 := hnd
          rw [List.filterMap_cons, hf] at h0
          exact h0
        have hothers : ∀ ar2 ∈ t, ¬ ar2.active = some false →
            ¬ "app-" ++ ar2.id = "app-" ++ ar.id := by
          intro ar2 har2 hact2 heq
          have hmem : ("app-" ++ ar.id) ∈ t.filterMap activeSid := by
            refine List.mem_filterMap.2 ⟨ar2, har2, ?_⟩
            unfold activeSid
            rw [if_neg hact2, heq]
          exact (List.nodup_cons.1 hndc).1 hmem
        rw [hpair]
        rw [foldRem_find_other t (mergeBillStep (m, c) ar).1
          (mergeBillStep (m, c) ar).2 ("app-" ++ ar.id) hothers]
        exact mergeBillStep_find_self m c ar hact
      · have hndt : (t.filterMap activeSid).Nodup := by
          cases hfa : activeSid a with
          | none =>
              have h0 := hnd
              rw [List.filterMap_cons, hfa] at h0
              exact h0
          | some s =>
              have h0 := hnd
              rw [List.filterMap_cons, hfa] at h0
              exact (List.nodup_cons.1 h0).2
        have hstep : bfind (mergeBillStep (m, c) a).1 ("app-" ++ ar.id) =
            bfind m ("app-" ++ ar.id) := by
          refine mergeBillStep_find_other m c a _ ?_
          intro hacta heq
          have hfa : activeSid a = some ("app-" ++ a.id) := by
            unfold activeSid
            rw [if_neg hacta]
          have hndc : (("app-" ++ a.id) :: t.filterMap activeSid).Nodup := by
            have h0 := hnd
            rw [List.filterMap_cons, hfa] at h0
            exact h0
          have hmem : ("app-" ++ a.id) ∈ t.filterMap activeSid := by
            refine List.mem_filterMap.2 ⟨ar, hae, ?_⟩
            unfold activeSid
            rw [if_neg hact, ← heq]
          exact (List.nodup_cons.1 hndc).1 hmem
        rw [hpair]
        rw [ih (mergeBillStep (m, c) a).1 (mergeBillStep (m, c) a).2 hndt ar hae
          hact]
        rw [hstep]

theorem foldRem_mem :
    ∀ (rem : List AppRecurring) (m : List Bill) (c : Bool) (b : Bill),
      b ∈ m →
      (∀ ar ∈ rem, ¬ ar.active = some false → ¬ "app-" ++ ar.id = b.id) →
      b ∈ (rem.foldl mergeBillStep (m, c)).1 := by
  intro rem
  induction rem with
  | nil => intro m c b hb _; exact hb
  | cons a t ih =>
      intro m c b hb h
      rw [List.foldl_cons]
      have hpair : mergeBillStep (m, c) a =
          ((mergeBillStep (m, c) a).1, (mergeBillStep (m, c) a).2) := rfl
      rw [hpair]
      refine ih (mergeBillStep (m, c) a).1 (mergeBillStep (m, c) a).2 b ?_
        (fun ar har => h ar (List.mem_cons_of_mem a har))
      exact mergeBillStep_mem m c a b hb (h a (List.mem_cons_self a t))

theorem mergeBillStep_snd_true (m : List Bill) (ar : AppRecurring) :
    (mergeBillStep (m, true) ar).2 = true := by
  by_cases hact : ar.active = some false
  · simp only [mergeBillStep, if_pos hact]
  · cases hfind : bfind m ("app-" ++ ar.id) with
    | none => simp only [mergeBillStep, if_neg hact, hfind]
    | some existing =>
        by_cases hdiff : existing.amount ≠ ar.amount ∨ existing.name ≠ ar.name
        · simp only [mergeBillStep, if_neg hact, hfind, if_pos hdiff]
        · simp only [mergeBillStep, if_neg hact, hfind, if_neg hdiff]

theorem foldRem_true :
    ∀ (rem : List AppRecurring) (m : List Bill),
      (rem.foldl mergeBillStep (m, true)).2 = true := by
  intro rem
  induction rem with
  | nil => intro m; rfl
  | cons a t ih =>
      intro m
      rw [List.foldl_cons]
      have h1 : mergeBillStep (m, true) a =
          ((mergeBillStep (m, true) a).1, true) :=
        Prod.ext rfl (mergeBillStep_snd_true m a)
      rw [h1]
      exact ih (mergeBillStep (m, true) a).1

theorem mergeBillStep_dicho (m : List Bill) (ar : AppRecurring) :
    mergeBillStep (m, false) ar = (m, false) ∨
      (mergeBillStep (m, false) ar).2 = true := by
  by_cases hact : ar.active = some false
  · exact Or.inl (by simp only [mergeBillStep, if_pos hact])
  · cases hfind : bfind m ("app-" ++ ar.id) with
    | none => exact Or.inr (by simp only [mergeBillStep, if_neg hact, hfind])
    | some existing =>
        by_cases hdiff : existing.amount ≠ ar.amount ∨ existing.name ≠ ar.name
        · exact Or.inr
            (by simp only [mergeBillStep, if_neg hact, hfind, if_pos hdiff])
        · exact Or.inl
            (by simp only [mergeBillStep, if_neg hact, hfind, if_neg hdiff])

theorem foldRem_unchanged :
    ∀ (rem : List AppRecurring) (m : List Bill),
      (rem.foldl mergeBillStep (m, false)).2 = false →
      (rem.foldl mergeBillStep (m, false)).1 = m := by
  intro rem
  induction rem with
  | nil => intro m _; rfl
  | cons a t ih =>
      intro m h
      rw [List.foldl_cons] at h ⊢
      rcases mergeBillStep_dicho m a with he | ht
      · rw [he] at h ⊢
        exact ih m h
      · have h1 : mergeBillStep (m, false) a =
            ((mergeBillStep (m, false) a).1, true) := Prod.ext rfl ht
        rw [h1, foldRem_true t (mergeBillStep (m, false) a).1] at h
        cases h

theorem foldl_mapSetBill_append :
    ∀ (l : List Bill) (acc : List Bill),
      ((acc ++ l).map Bill.id).Nodup →
      l.foldl mapSetBill acc = acc ++ l := by
  intro l
  induction l with
  | nil => intro acc _; rw [List.foldl_nil, List.append_nil]
  | cons b t ih =>
      intro acc hnd
      rw [List.foldl_cons]
      have hsplit := List.nodup_append.1 (by
        rw [← List.map_append]
        exact hnd)
      have hb : ¬ (acc.any (fun x => x.id = b.id) = true) := by
        intro hc
        rcases List.any_eq_true.1 hc with ⟨x, hx, hpx⟩
        have hxid : x.id = b.id := by simpa using hpx
        have hmem1 : x.id ∈ acc.map Bill.id := List.mem_map_of_mem Bill.id hx
        have hmem2 : x.id ∈ (b :: t).map Bill.id := by
          rw [hxid]
          exact List.mem_map_of_mem Bill.id (List.mem_cons_self b t)
        exact hsplit.2.2 hmem1 hmem2
      rw [mapSetBill_absent acc b hb]
      have hre : (acc ++ [b]) ++ t = acc ++ b :: t := by
        rw [List.append_assoc]
        rfl
      rw [ih (acc ++ [b]) (by rw [hre]; exact hnd)]
      exact hre




/-- C9 counterexample: a remote recurring expense flagged
`active = false` and absent from the ledger is skipped, not inserted —
the merge is not an unconditional upsert. -/
theorem mergeAppBills_skips_inactive :
    mergeAppBills [arInactive] [] = [] ∧
    bfind (mergeAppBills [arInactive] []) "app-9" = none := by
  have h : mergeAppBills [arInactive] [] = [] := rfl
  exact ⟨h, by rw [h]; rfl⟩

/-- C9 amended: for every remote recurring expense not flagged
`active = false`, the merge upserts by namespaced id: when the bill is
absent it is inserted as `billFromRecurring` (fresh bill, `isPaid =
false`); when present, the resulting ledger holds exactly
`updatedBill b ar` — the local bill with only `name` and `amount`
overwritten from the remote, every other field (`isPaid`,
`lastPaidDate`, ...) untouched, and untouched verbatim when neither
differs. Entries flagged `active = false` are skipped entirely. Bills
not addressed by any active remote entry survive unchanged. Local bill
ids and active remote namespaced ids are unique. -/
theorem mergeAppBills_upsert (appRecurring : List AppRecurring)
    (current : List Bill)
    (hcur : (current.map Bill.id).Nodup)
    (hsids : (appRecurring.filterMap activeSid).Nodup) :
    (∀ ar ∈ appRecurring, ¬ ar.active = some false →
       bfind (mergeAppBills appRecurring current) ("app-" ++ ar.id) =
         some (match bfind current ("app-" ++ ar.id) with
               | some b => updatedBill b ar
               | none => billFromRecurring ar)) ∧
    (∀ b ∈ current, (∀ ar ∈ appRecurring, ¬ ar.active = some false →
        ¬ "app-" ++ ar.id = b.id) → b ∈ mergeAppBills appRecurring current) := by
  by_cases hemp : appRecurring.isEmpty
  · have h0 : appRecurring = [] := by simpa using hemp
    subst h0
    constructor
    · intro ar har
      cases har
    · intro b hb _
      have he : mergeAppBills [] current = current := rfl
      rw [he]
      exact hb
  · have hm0 : current.foldl mapSetBill [] = current :=
      foldl_mapSetBill_append current [] (by simpa using hcur)
    have hres : mergeAppBills appRecurring current =
        (if (appRecurring.foldl mergeBillStep (current, false)).2 = true
         then (appRecurring.foldl mergeBillStep (current, false)).1
         else current) := by
      unfold mergeAppBills
      rw [if_neg hemp, hm0]
    by_cases hch : (appRecurring.foldl mergeBillStep (current, false)).2 = true
    · have hres2 : mergeAppBills appRecurring current =
          (appRecurring.foldl mergeBillStep (current, false)).1 := by
        rw [hres, if_pos hch]
      constructor
      · intro ar har hact
        rw [hres2]
        exact foldRem_find_self appRecurring current false hsids ar har hact
      · intro b hb hforall
        rw [hres2]
        exact foldRem_mem appRecurring current false b hb hforall
    · have hch2 : (appRecurring.foldl mergeBillStep (current, false)).2 = false := by
        revert hch
        cases (appRecurring.foldl mergeBillStep (current, false)).2 <;> simp
      have hm1 : (appRecurring.foldl mergeBillStep (current, false)).1 = current :=
        foldRem_unchanged appRecurring current hch2
      have hres2 : mergeAppBills appRecurring current = current := by
        rw [hres, if_neg hch]
      constructor
      · intro ar har hact
        have hfs := foldRem_find_self appRecurring current false hsids ar har hact
        rw [hm1] at hfs
        rw [hres2]
        exact hfs
      · intro b hb _
        rw [hres2]
        exact hb

/-- C9 amended witness: merging remote recurring expense 7 (Rent, 1200)
over a local bill `app-7` (Rent, 1000, paid) yields exactly the local
bill with the amount overwritten and the paid state preserved. -/
theorem mergeAppBills_upsert_witness :
    (([exBill7]).map Bill.id).Nodup ∧
    ([exRemoteRecurring].filterMap activeSid).Nodup ∧
    bfind (mergeAppBills [exRemoteRecurring] [exBill7]) "app-7" =
      some (match bfind [exBill7] "app-7" with
            | some b => updatedBill b exRemoteRecurring
            | none => billFromRecurring exRemoteRecurring) := by
  have h1 : (([exBill7]).map Bill.id).Nodup := by simp
  have h2 : ([exRemoteRecurring].filterMap activeSid).Nodup := by
    simp [activeSid, exRemoteRecurring]
  exact ⟨h1, h2, (mergeAppBills_upsert [exRemoteRecurring] [exBill7] h1 h2).1
    exRemoteRecurring (List.mem_singleton.2 rfl) (by simp [exRemoteRecurring])⟩

end MoneyGoals
